import Mathlib

/-!
# hdlatency.c: benchmark engine, sweep driver and phase orchestration

A shallow embedding of `src/hdlatency.c`.

* C integers (`int`, `long`, `long long`, `time_t`) are mathematical integers,
  without wrap-around: signed overflow is undefined in C, and the lemmas
  `corrected_usecs_fits` and `sweep_next_fits` give ranges, wider than any run
  of the tool reaches, in which no intermediate value leaves the 64-bit range.
  The iteration counter `num_iterations` starts at 0 and is only incremented, so
  it is a natural number; it also serves as the cursor into the environment.
* C `/` and `%` truncate toward zero: they are `Int.tdiv` and `Int.tmod`, and a
  zero divisor is the outcome `sigfpe` (the process is killed).
* The operating system is an explicit environment: what `gettimeofday`,
  `lseek`, `read` and `write` return at each iteration is given by a `RunEnv`;
  `rand`/`srand` are a generator `Rng` with an explicit state.
* What a function does to the outside world is returned as a trace of `Sys`
  events: file operations, the progress line written to stderr at the start of
  every run, and the CSV record written to stdout.
* Loops take a `fuel` bound; `pending` is the outcome of a loop that has not
  finished within it.
-/

namespace Hdlatency

/-! ## Constants -/

/-- The divisor `LATENCYTEST_MUL` of the timer-latency correction. -/
def LATENCYTEST_MUL : Int := 100000

/-- The two fields of `struct timeval`. -/
structure Timeval where
  tv_sec : Int
  tv_usec : Int
deriving DecidableEq

/-- The macro `timersub(a, b, result)` of `<sys/time.h>`. -/
def timersub (a b : Timeval) : Timeval :=
  let sec := a.tv_sec - b.tv_sec
  let usec := a.tv_usec - b.tv_usec
  if usec < 0 then { tv_sec := sec - 1, tv_usec := usec + 1000000 }
  else { tv_sec := sec, tv_usec := usec }

/-- C integer division: truncation toward zero, undefined on a zero divisor. -/
def cdiv (a b : Int) : Option Int :=
  if b = 0 then none else some (Int.tdiv a b)

/-- C integer remainder, undefined on a zero divisor. -/
def cmod (a b : Int) : Option Int :=
  if b = 0 then none else some (Int.tmod a b)

/-- The `iotype` column: `SEQ` or `RND`. -/
inductive IoType where
  | SEQ
  | RND
deriving DecidableEq

/-- The `rw` column: `RDONLY`, `WRONLY` or `RDWR`. -/
inductive RwName where
  | RDONLY
  | WRONLY
  | RDWR
deriving DecidableEq

/-- One CSV data line, in the order of the header printed by `main`. -/
structure Record where
  lbl : String
  iotype : IoType
  rw : RwName
  fsize : Int
  msize : Int
  alignment : Int
  direct : Int
  max_seconds : Int
  iosize : Int
  num_iterations : Nat
  usecs : Int
  iterations_per_second : Int
  avg_usecs_per_iteration : Int
deriving DecidableEq

/-- What the program does to the outside world. -/
inductive Sys where
  | open_file (direct : Int)
  | lseek (pos : Int)
  | fsync
  | read (count : Int)
  | write (count : Int)
  | progress (t : IoType) (rw : RwName) (iosize : Int)
  | print (r : Record)
  | close
  | unlink
deriving DecidableEq

/-- How a function ends: `ok` is `return (1)`, `failed` is `return (0)`, `sigfpe`
is an integer division by zero, `pending` is a loop still running when the fuel
is spent. -/
inductive Ret where
  | ok
  | failed
  | sigfpe
  | pending
deriving DecidableEq

/-- The outcome of a run, a sweep or a phase. -/
structure Result where
  ret : Ret
  trace : List Sys

/-- What the system calls of one loop iteration return: `seek` is the value of
`lseek` (random runs only), `io` that of `read` or `write`, and `tvend` the time
read by `get_timer(&tvend)`, `none` when `gettimeofday` fails. -/
structure IterEv where
  seek : Int
  io : Int
  tvend : Option Timeval

/-- The environment of one run: the time read by `get_timer(&tvstart)` and the
events of the iterations, indexed from 0. -/
structure RunEnv where
  tvstart : Option Timeval
  iter : Nat → IterEv

/-- The C library generator behind `srand` and `rand`, with its hidden state made
explicit. -/
structure Rng (σ : Type) where
  srand : Int → σ
  rand : σ → Int × σ

/-- How a measuring loop ends. -/
inductive LoopEnd where
  | exited (tvdiff : Timeval) (num_iterations : Nat)
  | failed
  | sigfpe
  | pending

/-! ## Reporting (lines 175-186 and 270-281) -/

/-- The corrected elapsed time: lines 175-177 and 270-272. -/
def corrected_usecs (tvdiff : Timeval) (num_iterations : Nat) (timeofday_latency : Int) : Int :=
  let usecs := (tvdiff.tv_sec * 1000000 + tvdiff.tv_usec)
    - Int.tdiv ((num_iterations : Int) * timeofday_latency) LATENCYTEST_MUL
  if usecs < 1 then 1 else usecs

/-- The record of the `printf` at lines 179-184 and 274-279; `none` when one of
the two divisions of its arguments has a zero divisor. -/
def report (lbl : String) (t : IoType) (rw : RwName)
    (fsize msize alignment direct max_seconds iosize : Int)
    (num_iterations : Nat) (usecs : Int) : Option Record :=
  match cdiv usecs num_iterations with
  | none => none
  | some avg =>
    match cdiv 1000000 avg with
    | none => none
    | some ips =>
      some { lbl := lbl, iotype := t, rw := rw, fsize := fsize, msize := msize,
             alignment := alignment, direct := direct, max_seconds := max_seconds,
             iosize := iosize, num_iterations := num_iterations, usecs := usecs,
             iterations_per_second := ips, avg_usecs_per_iteration := avg }

/-- The end of both runners, from the end of the loop to the return. -/
def finish (lbl : String) (t : IoType) (rw : RwName)
    (fsize msize alignment direct max_seconds timeofday_latency iosize : Int)
    (pre : List Sys) : LoopEnd → Result
  | .exited tvdiff num_iterations =>
    match report lbl t rw fsize msize alignment direct max_seconds iosize num_iterations
        (corrected_usecs tvdiff num_iterations timeofday_latency) with
    | some r => { ret := .ok, trace := pre ++ [.print r] }
    | none => { ret := .sigfpe, trace := pre }
  | .failed => { ret := .failed, trace := pre }
  | .sigfpe => { ret := .sigfpe, trace := pre }
  | .pending => { ret := .pending, trace := pre }

/-- The name printed for a sequential run: `writeops ? "WRONLY" : "RDONLY"`. -/
def seq_rw (writeops : Int) : RwName :=
  if writeops ≠ 0 then .WRONLY else .RDONLY

/-- The name printed for a random run:
`writeops ? (writeops==2 ? "RDWR" : "WRONLY") : "RDONLY"`. -/
def rnd_rw (writeops : Int) : RwName :=
  if writeops ≠ 0 then (if writeops = 2 then .RDWR else .WRONLY) else .RDONLY

/-! ## Sequential runner (lines 136-187) -/

/-- The file operations of one iteration of the sequential loop: the transfer,
and the `fsync` of a buffered write. -/
def seq_ops (writeops direct iosize : Int) : List Sys :=
  (if writeops ≠ 0 then Sys.write iosize else Sys.read iosize) ::
    (if writeops ≠ 0 ∧ direct = 0 then [Sys.fsync] else [])

/-- The `do ... while` loop of `run_sequential_one`, lines 157-173, entered with
the given `bytes_left` and `num_iterations`. -/
def seq_loop (writeops direct max_seconds iosize : Int) (tvstart : Timeval)
    (iter : Nat → IterEv) : Nat → Int → Nat → List Sys × LoopEnd
  | 0, _, _ => ([], .pending)
  | fuel + 1, bytes_left, num_iterations =>
    let e := iter num_iterations
    if e.io < 0 then
      ([if writeops ≠ 0 then Sys.write iosize else Sys.read iosize], .failed)
    else
      match e.tvend with
      | none => (seq_ops writeops direct iosize, .failed)
      | some tvend =>
        let bytes_left := bytes_left - e.io
        let num_iterations := num_iterations + 1
        let tvdiff := timersub tvend tvstart
        if tvdiff.tv_sec < max_seconds ∧ bytes_left ≥ iosize then
          let rest := seq_loop writeops direct max_seconds iosize tvstart iter
            fuel bytes_left num_iterations
          (seq_ops writeops direct iosize ++ rest.1, rest.2)
        else
          (seq_ops writeops direct iosize, .exited tvdiff num_iterations)

/-- The function `run_sequential_one`; `env` stands for the file descriptor and
the buffer. -/
def run_sequential_one (fuel : Nat) (lbl : String) (writeops : Int) (env : RunEnv)
    (fsize msize alignment direct max_seconds timeofday_latency iosize : Int) : Result :=
  let pre := [Sys.lseek 0, Sys.fsync, Sys.progress .SEQ (seq_rw writeops) iosize]
  match env.tvstart with
  | none => { ret := .failed, trace := pre }
  | some tvstart =>
    let l := seq_loop writeops direct max_seconds iosize tvstart env.iter fuel fsize 0
    finish lbl .SEQ (seq_rw writeops) fsize msize alignment direct max_seconds
      timeofday_latency iosize (pre ++ l.1) l.2

/-! ## Random runner (lines 220-282) -/

/-- The offset of line 246, `(rand() % ((fsize - iosize) / iosize)) * iosize`, for
the value `r` returned by `rand()`; `none` when a divisor is zero. -/
def random_pos (r fsize iosize : Int) : Option Int :=
  match cdiv (fsize - iosize) iosize with
  | none => none
  | some d =>
    match cmod r d with
    | none => none
    | some m => some (m * iosize)

/-- The file operations of one iteration of the random loop after the seek: the
transfer, and the `fsync` of a buffered write. -/
def rnd_ops (rw direct iosize : Int) : List Sys :=
  (if rw ≠ 0 then Sys.write iosize else Sys.read iosize) ::
    (if rw ≠ 0 ∧ direct = 0 then [Sys.fsync] else [])

/-- The update of `rw` at lines 252-253: `if (writeops == 2) rw = rw ? 0 : 1;`. -/
def next_rw (writeops rw : Int) : Int :=
  if writeops = 2 then (if rw ≠ 0 then 0 else 1) else rw

/-- The `do ... while` loop of `run_random_one`, lines 244-268, entered with the
given `rw`, `num_iterations` and generator state. -/
def rnd_loop {σ : Type} (R : Rng σ) (writeops fsize direct max_seconds iosize : Int)
    (tvstart : Timeval) (iter : Nat → IterEv) :
    Nat → Int → Nat → σ → (List Sys × LoopEnd) × σ
  | 0, _, _, g => (([], .pending), g)
  | fuel + 1, rw, num_iterations, g =>
    let e := iter num_iterations
    let rg := R.rand g
    match random_pos rg.1 fsize iosize with
    | none => (([], .sigfpe), rg.2)
    | some pos =>
      if e.seek < 0 then (([.lseek pos], .failed), rg.2)
      else
        let rw := next_rw writeops rw
        if e.io < 0 then
          (([.lseek pos, if rw ≠ 0 then Sys.write iosize else Sys.read iosize], .failed), rg.2)
        else
          match e.tvend with
          | none => ((.lseek pos :: rnd_ops rw direct iosize, .failed), rg.2)
          | some tvend =>
            let num_iterations := num_iterations + 1
            let tvdiff := timersub tvend tvstart
            if tvdiff.tv_sec < max_seconds then
              let rest := rnd_loop R writeops fsize direct max_seconds iosize tvstart iter
                fuel rw num_iterations rg.2
              ((.lseek pos :: rnd_ops rw direct iosize ++ rest.1.1, rest.1.2), rest.2)
            else
              ((.lseek pos :: rnd_ops rw direct iosize, .exited tvdiff num_iterations), rg.2)

/-- The function `run_random_one`; `g` is the state of the generator when the
function is entered, which `srand(1)` overwrites, and the state the function
leaves is returned with the result. -/
def run_random_one {σ : Type} (R : Rng σ) (g : σ) (fuel : Nat) (lbl : String)
    (writeops : Int) (env : RunEnv)
    (fsize msize alignment direct max_seconds timeofday_latency iosize : Int) : Result × σ :=
  let seeded := Function.const σ (R.srand 1) g
  let pre := [Sys.lseek 0, Sys.fsync, Sys.progress .RND (rnd_rw writeops) iosize]
  match env.tvstart with
  | none => ({ ret := .failed, trace := pre }, seeded)
  | some tvstart =>
    let l := rnd_loop R writeops fsize direct max_seconds iosize tvstart env.iter
      fuel (if writeops = 2 then 1 else writeops) 0 seeded
    (finish lbl .RND (rnd_rw writeops) fsize msize alignment direct max_seconds
      timeofday_latency iosize (pre ++ l.1.1) l.1.2, l.2)

/-! ## Sweep drivers (lines 196-212 and 291-307) -/

/-- The loop `for (iosize = ...; iosize <= msize; iosize <<= 1)` of lines 204-209
and 299-304 around the runner `run`, which is given the generator state, the
number `k` of the run within the sweep and the block size; a run that does not
return 1 ends the sweep with its outcome. The shift `iosize <<= 1` is
`iosize * 2`. -/
def sweep_loop {σ : Type} (run : σ → Nat → Int → Result × σ) (msize : Int) :
    Nat → Nat → Int → σ → Result × σ
  | 0, _, iosize, g =>
    if iosize ≤ msize then ({ ret := .pending, trace := [] }, g)
    else ({ ret := .ok, trace := [] }, g)
  | fuel + 1, k, iosize, g =>
    if iosize ≤ msize then
      let r := run g k iosize
      match r.1.ret with
      | .ok =>
        let rest := sweep_loop run msize fuel (k + 1) (iosize * 2) r.2
        ({ ret := rest.1.ret, trace := r.1.trace ++ rest.1.trace }, rest.2)
      | _ => r
    else ({ ret := .ok, trace := [] }, g)

/-- The first block size of a sweep: `direct ? alignment : 1`. -/
def first_iosize (alignment direct : Int) : Int :=
  if direct ≠ 0 then alignment else 1

/-- The function `run_sequential_all`; `env k` is the environment of its run
number `k`. Sequential runs leave the generator alone. -/
def run_sequential_all {σ : Type} (g : σ) (fuel : Nat) (lbl : String) (writeops : Int)
    (env : Nat → RunEnv)
    (fsize msize alignment direct max_seconds timeofday_latency : Int) : Result × σ :=
  sweep_loop
    (fun g k iosize =>
      (run_sequential_one fuel lbl writeops (env k) fsize msize alignment direct
        max_seconds timeofday_latency iosize, g))
    msize fuel 0 (first_iosize alignment direct) g

/-- The function `run_random_all`; `env k` is the environment of its run number
`k`. -/
def run_random_all {σ : Type} (R : Rng σ) (g : σ) (fuel : Nat) (lbl : String)
    (writeops : Int) (env : Nat → RunEnv)
    (fsize msize alignment direct max_seconds timeofday_latency : Int) : Result × σ :=
  sweep_loop
    (fun g k iosize =>
      run_random_one R g fuel lbl writeops (env k) fsize msize alignment direct
        max_seconds timeofday_latency iosize)
    msize fuel 0 (first_iosize alignment direct) g

/-! ## Orchestration (lines 350-353 and 377-463 of `main`) -/

/-- The block sizes of the runs started, in order: one per progress line. -/
def blocks (tr : List Sys) : List Int :=
  tr.filterMap (fun s => match s with | .progress _ _ iosize => some iosize | _ => none)

/-- The runs started, in order: kind, operation and block size. -/
def runs (tr : List Sys) : List (IoType × RwName × Int) :=
  tr.filterMap (fun s => match s with | .progress t rw iosize => some (t, rw, iosize) | _ => none)

/-- The records written to stdout, in order. -/
def records (tr : List Sys) : List Record :=
  tr.filterMap (fun s => match s with | .print r => some r | _ => none)

/-- The transfers made, in order: `true` for a `write`, `false` for a `read`. -/
def transfers (tr : List Sys) : List Bool :=
  tr.filterMap (fun s => match s with | .write _ => some true | .read _ => some false | _ => none)

/-- The offsets sought, in order. -/
def seeks (tr : List Sys) : List Int :=
  tr.filterMap (fun s => match s with | .lseek pos => some pos | _ => none)

/-! ## Vocabulary of the statements -/

/-- The value of `bytes_left` after `k` iterations of the sequential loop: `fsize`
less what the first `k` transfers returned. -/
def bytes_left_after (fsize : Int) (iter : Nat → IterEv) : Nat → Int
  | 0 => fsize
  | k + 1 => bytes_left_after fsize iter k - (iter k).io

/-- The value of `tvdiff.tv_sec` after an iteration that met the events `e`. -/
def elapsed_sec (tvstart : Timeval) (e : IterEv) : Int :=
  match e.tvend with
  | some tvend => (timersub tvend tvstart).tv_sec
  | none => 0

/-- The state of the generator after `k` calls of `rand` from the state `g`. -/
def rand_state {σ : Type} (R : Rng σ) : σ → Nat → σ
  | g, 0 => g
  | g, k + 1 => rand_state R (R.rand g).2 k

/-- The value returned by call number `k` of `rand`, counted from 0, from the
state `g`. -/
def rand_value {σ : Type} (R : Rng σ) (g : σ) (k : Nat) : Int :=
  (R.rand (rand_state R g k)).1

/-- The traces, one after the other, of `n` successive runs of a sweep, from run
number `k` at block size `s` on, where `out j s` is the outcome of run number `j`
when it is made at block size `s`. -/
def sweep_traces (out : Nat → Int → Result) : Nat → Nat → Int → List Sys
  | 0, _, _ => []
  | n + 1, k, s => (out k s).trace ++ sweep_traces out n (k + 1) (s * 2)

/-- The outcome of run number `j` of `run_sequential_all` when it is made at block
size `s`: the call of lines 205-207. -/
def seq_run (fuel : Nat) (lbl : String) (writeops : Int) (env : Nat → RunEnv)
    (fsize msize alignment direct max_seconds timeofday_latency : Int)
    (j : Nat) (s : Int) : Result :=
  run_sequential_one fuel lbl writeops (env j) fsize msize alignment direct max_seconds
    timeofday_latency s

/-- The outcome of run number `j` of `run_random_all` when it is made at block size
`s`: the call of lines 300-302. -/
def rnd_run {σ : Type} (R : Rng σ) (g : σ) (fuel : Nat) (lbl : String) (writeops : Int)
    (env : Nat → RunEnv) (fsize msize alignment direct max_seconds timeofday_latency : Int)
    (j : Nat) (s : Int) : Result :=
  (run_random_one R g fuel lbl writeops (env j) fsize msize alignment direct max_seconds
    timeofday_latency s).1

/-- The range of `long` and `long long`: 64 bits, signed. -/
def fits_long (x : Int) : Prop :=
  -(2 : Int) ^ 63 ≤ x ∧ x < 2 ^ 63

/-! ## Concrete environments -/

/-- A generator for the examples: the state is a counter, `srand` sets it and
`rand` returns it and adds one. -/
def counter_rng : Rng Int :=
  { srand := fun seed => seed, rand := fun g => (g, g + 1) }

/-- A run whose timer starts at 0 and reads 2 s at the end of every iteration, and
whose transfers and seeks all succeed, each transfer returning 512 bytes. -/
def env_two_seconds : RunEnv :=
  { tvstart := some ⟨0, 0⟩, iter := fun _ => ⟨0, 512, some ⟨2, 0⟩⟩ }

/-- A sequential run whose first transfer is short (100 bytes of 512) and whose
later transfers are full, with the timer reading 1 s at the end of every
iteration. -/
def env_short_first : RunEnv :=
  { tvstart := some ⟨0, 0⟩,
    iter := fun k => ⟨0, if k = 0 then 100 else 512, some ⟨1, 0⟩⟩ }

/-- A run whose timer starts at 0 and reads `k + 1` seconds at the end of iteration
`k`, and whose seeks and transfers all succeed, each transfer returning 512
bytes. -/
def env_ticking : RunEnv :=
  { tvstart := some ⟨0, 0⟩, iter := fun k => ⟨0, 512, some ⟨(k : Int) + 1, 0⟩⟩ }

/-- A run of full transfers of 8 MiB during which the timer reads 5 microseconds
after the start at the end of every iteration. -/
def env_fast : RunEnv :=
  { tvstart := some ⟨0, 0⟩, iter := fun _ => ⟨0, 8388608, some ⟨0, 5⟩⟩ }

/-- The environments of a sweep whose run number `n` fails at once, its first timer
query failing, every other run making one iteration that ends at 2 s. -/
def env_fail_at (n : Nat) : Nat → RunEnv :=
  fun k => if k = n then { tvstart := none, iter := fun _ => ⟨0, 0, none⟩ } else env_two_seconds

theorem corrected_usecs_fits (tvdiff : Timeval) (n : Nat) (cal : Int)
    (hsec : 0 ≤ tvdiff.tv_sec) (hsec2 : tvdiff.tv_sec < 2 ^ 32) (hu0 : 0 ≤ tvdiff.tv_usec)
    (hu : tvdiff.tv_usec < 1000000) (hn : (n : Int) < 2 ^ 32) (hc0 : 0 ≤ cal)
    (hc : cal < 2 ^ 31) :
    fits_long (tvdiff.tv_sec * 1000000)
    ∧ fits_long (tvdiff.tv_sec * 1000000 + tvdiff.tv_usec)
    ∧ fits_long ((n : Int) * cal)
    ∧ fits_long (Int.tdiv ((n : Int) * cal) LATENCYTEST_MUL)
    ∧ fits_long ((tvdiff.tv_sec * 1000000 + tvdiff.tv_usec)
        - Int.tdiv ((n : Int) * cal) LATENCYTEST_MUL) := by
  have hn0 : (0 : Int) ≤ n := by positivity
  have hp0 : 0 ≤ (n : Int) * cal := by positivity
  have hp1 : (n : Int) * cal < 2 ^ 63 := by nlinarith
  have hq : Int.tdiv ((n : Int) * cal) LATENCYTEST_MUL = (n : Int) * cal / 100000 :=
    Int.tdiv_eq_ediv hp0 (by decide)
  have hq0 : 0 ≤ (n : Int) * cal / 100000 := Int.ediv_nonneg hp0 (by norm_num)
  have hq1 : (n : Int) * cal / 100000 ≤ (n : Int) * cal := Int.ediv_le_self _ hp0
  unfold fits_long
  rw [hq]
  refine ⟨⟨by omega, by omega⟩, ⟨by omega, by omega⟩, ⟨by omega, by omega⟩,
    ⟨by omega, by omega⟩, ⟨by omega, by omega⟩⟩

theorem sweep_next_fits (iosize msize : Int) (h0 : 0 < iosize) (h1 : iosize ≤ msize)
    (h2 : msize < 2 ^ 62) : fits_long (iosize * 2) := by
  unfold fits_long
  constructor <;> omega


/-! ## Lemmas on reporting -/

theorem tdiv_latency_eq_floor (n : Nat) (cal : Int) (h : 0 ≤ cal) :
    Int.tdiv ((n : Int) * cal) LATENCYTEST_MUL = ((n : Int) * cal) / 100000 := by
  unfold LATENCYTEST_MUL
  exact Int.tdiv_eq_ediv (by positivity) (by norm_num)

theorem corrected_usecs_eq_max (tvdiff : Timeval) (n : Nat) (cal : Int) (h : 0 ≤ cal) :
    corrected_usecs tvdiff n cal
      = max 1 ((tvdiff.tv_sec * 1000000 + tvdiff.tv_usec) - ((n : Int) * cal) / 100000) := by
  unfold corrected_usecs
  rw [tdiv_latency_eq_floor n cal h]
  simp only []
  split_ifs with h1
  · rw [max_eq_left (by omega)]
  · rw [max_eq_right (by omega)]

theorem one_le_corrected_usecs (tvdiff : Timeval) (n : Nat) (cal : Int) :
    1 ≤ corrected_usecs tvdiff n cal := by
  unfold corrected_usecs
  simp only []
  split_ifs with h1 <;> omega

theorem report_some {lbl : String} {t : IoType} {rw : RwName}
    {fsize msize alignment direct max_seconds iosize : Int} {n : Nat} {u : Int} {r : Record}
    (h : report lbl t rw fsize msize alignment direct max_seconds iosize n u = some r) :
    r.num_iterations = n ∧ r.usecs = u ∧ r.iosize = iosize ∧ r.iotype = t ∧ r.rw = rw
      ∧ cdiv u n = some r.avg_usecs_per_iteration
      ∧ cdiv 1000000 r.avg_usecs_per_iteration = some r.iterations_per_second := by
  unfold report at h
  cases h1 : cdiv u n with
  | none => simp [h1] at h
  | some avg =>
    cases h2 : cdiv 1000000 avg with
    | none => simp [h1, h2] at h
    | some ips =>
      simp [h1, h2] at h
      subst h
      simp [h2]

theorem records_append (a b : List Sys) : records (a ++ b) = records a ++ records b := by
  simp [records, List.filterMap_append]

theorem blocks_append (a b : List Sys) : blocks (a ++ b) = blocks a ++ blocks b := by
  simp [blocks, List.filterMap_append]

theorem runs_append (a b : List Sys) : runs (a ++ b) = runs a ++ runs b := by
  simp [runs, List.filterMap_append]

theorem transfers_append (a b : List Sys) : transfers (a ++ b) = transfers a ++ transfers b := by
  simp [transfers, List.filterMap_append]

theorem seeks_append (a b : List Sys) : seeks (a ++ b) = seeks a ++ seeks b := by
  simp [seeks, List.filterMap_append]

theorem records_cons (x : Sys) (l : List Sys) :
    records (x :: l) = (match x with | .print r => [r] | _ => []) ++ records l := by
  cases x <;> simp [records]

theorem blocks_cons (x : Sys) (l : List Sys) :
    blocks (x :: l) = (match x with | .progress _ _ s => [s] | _ => []) ++ blocks l := by
  cases x <;> simp [blocks]

theorem transfers_cons (x : Sys) (l : List Sys) :
    transfers (x :: l)
      = (match x with | .write _ => [true] | .read _ => [false] | _ => []) ++ transfers l := by
  cases x <;> simp [transfers]

theorem seeks_cons (x : Sys) (l : List Sys) :
    seeks (x :: l) = (match x with | .lseek p => [p] | _ => []) ++ seeks l := by
  cases x <;> simp [seeks]

theorem records_seq_ops (w d s : Int) : records (seq_ops w d s) = [] := by
  unfold seq_ops records
  split_ifs <;> simp

theorem blocks_seq_ops (w d s : Int) : blocks (seq_ops w d s) = [] := by
  unfold seq_ops blocks
  split_ifs <;> simp

theorem seeks_seq_ops (w d s : Int) : seeks (seq_ops w d s) = [] := by
  unfold seq_ops seeks
  split_ifs <;> simp

theorem transfers_seq_ops (w d s : Int) :
    transfers (seq_ops w d s) = [decide (w ≠ 0)] := by
  unfold seq_ops transfers
  split_ifs <;> simp_all

/-! ## Lemmas on the sequential loop -/

theorem seq_loop_exit {w d ms s : Int} {t0 : Timeval} {iter : Nat → IterEv} :
    ∀ (fuel : Nat) (bl : Int) (k : Nat) {tvdiff : Timeval} {n : Nat},
      (seq_loop w d ms s t0 iter fuel bl k).2 = .exited tvdiff n →
      k < n ∧ ∃ t, (iter (n - 1)).tvend = some t ∧ tvdiff = timersub t t0 := by
  intro fuel
  induction fuel with
  | zero => intro bl k tvdiff n h; simp [seq_loop] at h
  | succ f ih =>
    intro bl k tvdiff n h
    rw [seq_loop] at h
    by_cases h1 : (iter k).io < 0
    · simp [h1] at h
    · cases htv : (iter k).tvend with
      | none => simp [h1, htv] at h
      | some tvend =>
        by_cases h2 : (timersub tvend t0).tv_sec < ms ∧ bl - (iter k).io ≥ s
        · simp only [h1, htv, h2, if_true, if_false, and_self] at h
          have := ih _ _ h
          exact ⟨by omega, this.2⟩
        · simp only [h1, htv, h2, if_false, LoopEnd.exited.injEq] at h
          obtain ⟨rfl, rfl⟩ := h
          exact ⟨by omega, tvend, by simpa using htv, rfl⟩

theorem seq_loop_quiet (w d ms s : Int) (t0 : Timeval) (iter : Nat → IterEv) :
    ∀ (fuel : Nat) (bl : Int) (k : Nat),
      records (seq_loop w d ms s t0 iter fuel bl k).1 = []
      ∧ blocks (seq_loop w d ms s t0 iter fuel bl k).1 = []
      ∧ seeks (seq_loop w d ms s t0 iter fuel bl k).1 = [] := by
  intro fuel
  induction fuel with
  | zero => intro bl k; simp [seq_loop, records, blocks, seeks]
  | succ f ih =>
    intro bl k
    rw [seq_loop]
    by_cases h1 : (iter k).io < 0
    · by_cases hw : w ≠ 0 <;> simp [h1, hw, records, blocks, seeks]
    · cases htv : (iter k).tvend with
      | none => simp [h1, records_seq_ops, blocks_seq_ops, seeks_seq_ops]
      | some tvend =>
        by_cases h2 : (timersub tvend t0).tv_sec < ms ∧ bl - (iter k).io ≥ s
        · simp only [h1, h2, if_true, if_false, and_self]
          simp [records_append, blocks_append, seeks_append, records_seq_ops, blocks_seq_ops,
            seeks_seq_ops, ih]
        · simp only [h1, h2, if_false]
          simp [records_seq_ops, blocks_seq_ops, seeks_seq_ops]

theorem seq_loop_run (w d ms s fsize : Int) (t0 : Timeval) (iter : Nat → IterEv) (N : Nat) :
    ∀ (fuel k : Nat), k ≤ N → N - k < fuel →
      (∀ j, k ≤ j → j ≤ N → 0 ≤ (iter j).io ∧ (iter j).tvend ≠ none) →
      (∀ j, k ≤ j → j < N →
        elapsed_sec t0 (iter j) < ms ∧ s ≤ bytes_left_after fsize iter (j + 1)) →
      (ms ≤ elapsed_sec t0 (iter N) ∨ bytes_left_after fsize iter (N + 1) < s) →
      ∃ tr t, (iter N).tvend = some t
        ∧ seq_loop w d ms s t0 iter fuel (bytes_left_after fsize iter k) k
            = (tr, .exited (timersub t t0) (N + 1))
        ∧ transfers tr = List.replicate (N + 1 - k) (decide (w ≠ 0)) := by
  intro fuel
  induction fuel with
  | zero => intro k _ h; omega
  | succ f ih =>
    intro k hk hfuel hok hcont hstop
    obtain ⟨hio, htv⟩ := hok k le_rfl hk
    obtain ⟨tvend, htvend⟩ := Option.ne_none_iff_exists'.mp htv
    rw [seq_loop]
    simp only [htvend]
    rw [if_neg (by omega)]
    rcases Nat.lt_or_ge k N with hlt | hge
    · have hc := hcont k le_rfl hlt
      simp only [elapsed_sec, htvend, bytes_left_after] at hc
      rw [if_pos ⟨hc.1, hc.2⟩]
      obtain ⟨tr, t, ht, hloop, htr⟩ := ih (k + 1) (by omega) (by omega)
        (fun j h1 h2 => hok j (by omega) h2) (fun j h1 h2 => hcont j (by omega) h2) hstop
      simp only [bytes_left_after] at hloop
      refine ⟨seq_ops w d s ++ tr, t, ht, ?_, ?_⟩
      · rw [hloop]
      · rw [transfers_append, transfers_seq_ops, htr]
        have : N + 1 - k = (N + 1 - (k + 1)) + 1 := by omega
        rw [this, List.replicate_succ]
        rfl
    · have hkN : k = N := by omega
      subst hkN
      simp only [elapsed_sec, htvend, bytes_left_after] at hstop
      rw [if_neg (by intro hh; rcases hstop with h | h <;> omega)]
      refine ⟨seq_ops w d s, tvend, htvend, rfl, ?_⟩
      rw [transfers_seq_ops]
      simp

/-! ## Lemmas on the random loop -/

theorem records_rnd_ops (w d s : Int) : records (rnd_ops w d s) = [] := by
  unfold rnd_ops records
  split_ifs <;> simp

theorem blocks_rnd_ops (w d s : Int) : blocks (rnd_ops w d s) = [] := by
  unfold rnd_ops blocks
  split_ifs <;> simp

theorem seeks_rnd_ops (w d s : Int) : seeks (rnd_ops w d s) = [] := by
  unfold rnd_ops seeks
  split_ifs <;> simp

theorem transfers_rnd_ops (w d s : Int) :
    transfers (rnd_ops w d s) = [decide (w ≠ 0)] := by
  unfold rnd_ops transfers
  split_ifs <;> simp_all

theorem rnd_loop_exit {σ : Type} {R : Rng σ} {w fsize d ms s : Int} {t0 : Timeval}
    {iter : Nat → IterEv} :
    ∀ (fuel : Nat) (rw : Int) (k : Nat) (g : σ) {tvdiff : Timeval} {n : Nat},
      (rnd_loop R w fsize d ms s t0 iter fuel rw k g).1.2 = .exited tvdiff n →
      k < n ∧ ∃ t, (iter (n - 1)).tvend = some t ∧ tvdiff = timersub t t0 := by
  intro fuel
  induction fuel with
  | zero => intro rw k g tvdiff n h; simp [rnd_loop] at h
  | succ f ih =>
    intro rw k g tvdiff n h
    rw [rnd_loop] at h
    cases hp : random_pos (R.rand g).1 fsize s with
    | none => simp [hp] at h
    | some pos =>
      by_cases h0 : (iter k).seek < 0
      · simp [hp, h0] at h
      · by_cases h1 : (iter k).io < 0
        · simp [hp, h0, h1] at h
        · cases htv : (iter k).tvend with
          | none => simp [hp, h0, h1, htv] at h
          | some tvend =>
            by_cases h2 : (timersub tvend t0).tv_sec < ms
            · simp only [hp, h0, h1, htv, h2, if_true, if_false] at h
              have := ih _ _ _ h
              exact ⟨by omega, this.2⟩
            · simp only [hp, h0, h1, htv, h2, if_false, LoopEnd.exited.injEq] at h
              obtain ⟨rfl, rfl⟩ := h
              exact ⟨by omega, tvend, by simpa using htv, rfl⟩

theorem rnd_loop_quiet {σ : Type} (R : Rng σ) (w fsize d ms s : Int) (t0 : Timeval)
    (iter : Nat → IterEv) :
    ∀ (fuel : Nat) (rw : Int) (k : Nat) (g : σ),
      records (rnd_loop R w fsize d ms s t0 iter fuel rw k g).1.1 = []
      ∧ blocks (rnd_loop R w fsize d ms s t0 iter fuel rw k g).1.1 = [] := by
  intro fuel
  induction fuel with
  | zero => intro rw k g; simp [rnd_loop, records, blocks]
  | succ f ih =>
    intro rw k g
    rw [rnd_loop]
    cases hp : random_pos (R.rand g).1 fsize s with
    | none => simp [records, blocks]
    | some pos =>
      by_cases h0 : (iter k).seek < 0
      · simp [h0, records, blocks]
      · by_cases h1 : (iter k).io < 0
        · simp only [h0, h1, if_true, if_false]
          split_ifs <;> simp [records, blocks]
        · cases htv : (iter k).tvend with
          | none =>
            simp only [h0, h1, if_false]
            simp [records_cons, blocks_cons, records_rnd_ops, blocks_rnd_ops]
          | some tvend =>
            by_cases h2 : (timersub tvend t0).tv_sec < ms
            · simp only [h0, h1, h2, if_true, if_false]
              simp [records_cons, blocks_cons, records_append, blocks_append, records_rnd_ops,
                blocks_rnd_ops, ih]
            · simp only [h0, h1, h2, if_false]
              simp [records_cons, blocks_cons, records_rnd_ops, blocks_rnd_ops]

theorem rnd_loop_seeks {σ : Type} {R : Rng σ} {w fsize d ms s : Int} {t0 : Timeval}
    {iter : Nat → IterEv} :
    ∀ (fuel : Nat) (rw : Int) (k : Nat) (g : σ) (i : Nat) (p : Int),
      (seeks (rnd_loop R w fsize d ms s t0 iter fuel rw k g).1.1)[i]? = some p →
      random_pos (rand_value R g i) fsize s = some p := by
  intro fuel
  induction fuel with
  | zero => intro rw k g i p h; simp [rnd_loop, seeks] at h
  | succ f ih =>
    intro rw k g i p h
    rw [rnd_loop] at h
    cases hp : random_pos (R.rand g).1 fsize s with
    | none => simp [hp, seeks] at h
    | some pos =>
      have key : ∀ rest : List Sys, (∀ j q, (seeks rest)[j]? = some q →
          random_pos (rand_value R (R.rand g).2 j) fsize s = some q) →
          (seeks (Sys.lseek pos :: rest))[i]? = some p →
          random_pos (rand_value R g i) fsize s = some p := by
        intro rest hrest hi
        rw [seeks_cons] at hi
        cases i with
        | zero =>
          simp at hi
          subst hi
          simpa [rand_value, rand_state] using hp
        | succ j =>
          simp at hi
          simpa [rand_value, rand_state] using hrest j p hi
      have nil : ∀ j q, (seeks ([] : List Sys))[j]? = some q →
          random_pos (rand_value R (R.rand g).2 j) fsize s = some q := by
        intro j q hj; simp [seeks] at hj
      by_cases h0 : (iter k).seek < 0
      · simp only [hp, h0, if_true] at h
        exact key [] nil h
      · by_cases h1 : (iter k).io < 0
        · simp only [hp, h0, h1, if_true, if_false] at h
          refine key _ ?_ h
          intro j q hj
          rw [seeks_cons] at hj
          split_ifs at hj <;> simp [seeks] at hj
        · cases htv : (iter k).tvend with
          | none =>
            simp only [hp, h0, h1, htv, if_false] at h
            refine key _ ?_ h
            intro j q hj
            simp [seeks_rnd_ops] at hj
          | some tvend =>
            by_cases h2 : (timersub tvend t0).tv_sec < ms
            · simp only [hp, h0, h1, htv, h2, if_true, if_false] at h
              refine key _ ?_ h
              intro j q hj
              simp only [List.append_eq, seeks_append, seeks_rnd_ops, List.nil_append] at hj
              exact ih _ _ _ j q hj
            · simp only [hp, h0, h1, htv, h2, if_false] at h
              refine key _ ?_ h
              intro j q hj
              simp [seeks_rnd_ops] at hj

theorem rnd_loop_alternates {σ : Type} {R : Rng σ} {fsize d ms s : Int} {t0 : Timeval}
    {iter : Nat → IterEv} :
    ∀ (fuel : Nat) (rw : Int) (k : Nat) (g : σ) (i : Nat) (b : Bool),
      (transfers (rnd_loop R 2 fsize d ms s t0 iter fuel rw k g).1.1)[i]? = some b →
      b = (decide (rw = 0) != decide (i % 2 = 1)) := by
  intro fuel
  induction fuel with
  | zero => intro rw k g i b h; simp [rnd_loop, transfers] at h
  | succ f ih =>
    intro rw k g i b h
    rw [rnd_loop] at h
    cases hp : random_pos (R.rand g).1 fsize s with
    | none => simp [hp, transfers] at h
    | some pos =>
      have hflip : decide (next_rw 2 rw ≠ 0) = decide (rw = 0) := by
        unfold next_rw
        by_cases hr : rw = 0 <;> simp [hr]
      have key : ∀ rest : List Sys, (∀ j c, (transfers rest)[j]? = some c →
          c = (decide (next_rw 2 rw = 0) != decide (j % 2 = 1))) →
          (transfers (Sys.lseek pos :: (if next_rw 2 rw ≠ 0 then Sys.write s else Sys.read s)
            :: rest))[i]? = some b →
          b = (decide (rw = 0) != decide (i % 2 = 1)) := by
        intro rest hrest hi
        rw [transfers_cons, transfers_cons] at hi
        have hop : (match (if next_rw 2 rw ≠ 0 then Sys.write s else Sys.read s) with
            | .write _ => [true] | .read _ => [false] | _ => []) = [decide (rw = 0)] := by
          rw [← hflip]
          split_ifs with hh <;> simp [hh]
        rw [hop] at hi
        cases i with
        | zero =>
          simp at hi
          rw [← hi]
          simp
        | succ j =>
          simp at hi
          have := hrest j b hi
          rw [this]
          have hz : decide (next_rw 2 rw = 0) = !decide (rw = 0) := by
            unfold next_rw
            by_cases hr : rw = 0 <;> simp [hr]
          rw [hz]
          have hpar : decide ((j + 1) % 2 = 1) = !decide (j % 2 = 1) := by
            rcases Nat.mod_two_eq_zero_or_one j with hj | hj
            · have : (j + 1) % 2 = 1 := by omega
              simp [hj, this]
            · have : (j + 1) % 2 = 0 := by omega
              simp [hj, this]
          rw [hpar]
          cases decide (rw = 0) <;> cases decide (j % 2 = 1) <;> rfl
      have nil : ∀ j c, (transfers ([] : List Sys))[j]? = some c →
          c = (decide (next_rw 2 rw = 0) != decide (j % 2 = 1)) := by
        intro j c hj; simp [transfers] at hj
      by_cases h0 : (iter k).seek < 0
      · simp [hp, h0, transfers] at h
      · by_cases h1 : (iter k).io < 0
        · simp only [hp, h0, h1, if_true, if_false] at h
          exact key [] nil h
        · cases htv : (iter k).tvend with
          | none =>
            simp only [hp, h0, h1, htv, if_false, rnd_ops] at h
            refine key _ ?_ h
            intro j c hj
            split_ifs at hj <;> simp [transfers] at hj
          | some tvend =>
            by_cases h2 : (timersub tvend t0).tv_sec < ms
            · simp only [hp, h0, h1, htv, h2, if_true, if_false, rnd_ops, List.cons_append] at h
              refine key _ ?_ h
              intro j c hj
              rw [transfers_append] at hj
              have e : transfers (if next_rw 2 rw ≠ 0 ∧ d = 0 then [Sys.fsync] else []) = [] := by
                split_ifs <;> simp [transfers]
              rw [e, List.nil_append] at hj
              exact ih _ _ _ j c hj
            · simp only [hp, h0, h1, htv, h2, if_false, rnd_ops] at h
              refine key _ ?_ h
              intro j c hj
              split_ifs at hj <;> simp [transfers] at hj

/-! ## Lemmas on the two runners -/

theorem finish_cases (lbl : String) (t : IoType) (rw : RwName)
    (fsize msize alignment direct max_seconds cal iosize : Int) (pre : List Sys) (e : LoopEnd) :
    (∃ tvdiff n r, e = .exited tvdiff n
        ∧ report lbl t rw fsize msize alignment direct max_seconds iosize n
            (corrected_usecs tvdiff n cal) = some r
        ∧ (finish lbl t rw fsize msize alignment direct max_seconds cal iosize pre e).ret = .ok
        ∧ (finish lbl t rw fsize msize alignment direct max_seconds cal iosize pre e).trace
            = pre ++ [.print r])
    ∨ ((finish lbl t rw fsize msize alignment direct max_seconds cal iosize pre e).ret ≠ .ok
        ∧ (finish lbl t rw fsize msize alignment direct max_seconds cal iosize pre e).trace
            = pre) := by
  cases e with
  | exited tvdiff n =>
    cases h : report lbl t rw fsize msize alignment direct max_seconds iosize n
        (corrected_usecs tvdiff n cal) with
    | none => right; simp [finish, h]
    | some r => left; exact ⟨tvdiff, n, r, rfl, h, by simp [finish, h], by simp [finish, h]⟩
  | failed => right; simp [finish]
  | sigfpe => right; simp [finish]
  | pending => right; simp [finish]

theorem finish_quiet (lbl : String) (t : IoType) (rw : RwName)
    (fsize msize alignment direct max_seconds cal iosize : Int) (pre : List Sys) (e : LoopEnd) :
    blocks (finish lbl t rw fsize msize alignment direct max_seconds cal iosize pre e).trace
        = blocks pre
    ∧ runs (finish lbl t rw fsize msize alignment direct max_seconds cal iosize pre e).trace
        = runs pre
    ∧ transfers (finish lbl t rw fsize msize alignment direct max_seconds cal iosize pre e).trace
        = transfers pre
    ∧ seeks (finish lbl t rw fsize msize alignment direct max_seconds cal iosize pre e).trace
        = seeks pre := by
  rcases finish_cases lbl t rw fsize msize alignment direct max_seconds cal iosize pre e with
    ⟨_, _, r, _, _, _, h⟩ | ⟨_, h⟩
  · rw [h]
    simp [blocks_append, runs_append, transfers_append, seeks_append, blocks, runs, transfers,
      seeks]
  · rw [h]
    simp

theorem run_sequential_one_none {fuel : Nat} {lbl : String} {w : Int} {env : RunEnv}
    {fsize msize alignment direct ms cal s : Int} (h : env.tvstart = none) :
    run_sequential_one fuel lbl w env fsize msize alignment direct ms cal s
      = { ret := .failed,
          trace := [Sys.lseek 0, Sys.fsync, Sys.progress .SEQ (seq_rw w) s] } := by
  simp [run_sequential_one, h]

theorem run_sequential_one_some {fuel : Nat} {lbl : String} {w : Int} {env : RunEnv}
    {fsize msize alignment direct ms cal s : Int} {t0 : Timeval} (h : env.tvstart = some t0) :
    run_sequential_one fuel lbl w env fsize msize alignment direct ms cal s
      = finish lbl .SEQ (seq_rw w) fsize msize alignment direct ms cal s
          ([Sys.lseek 0, Sys.fsync, Sys.progress .SEQ (seq_rw w) s]
            ++ (seq_loop w direct ms s t0 env.iter fuel fsize 0).1)
          (seq_loop w direct ms s t0 env.iter fuel fsize 0).2 := by
  simp [run_sequential_one, h]

theorem run_random_one_none {σ : Type} {R : Rng σ} {g : σ} {fuel : Nat} {lbl : String}
    {w : Int} {env : RunEnv} {fsize msize alignment direct ms cal s : Int}
    (h : env.tvstart = none) :
    (run_random_one R g fuel lbl w env fsize msize alignment direct ms cal s).1
      = { ret := .failed,
          trace := [Sys.lseek 0, Sys.fsync, Sys.progress .RND (rnd_rw w) s] } := by
  simp [run_random_one, h]

theorem run_random_one_some {σ : Type} {R : Rng σ} {g : σ} {fuel : Nat} {lbl : String}
    {w : Int} {env : RunEnv} {fsize msize alignment direct ms cal s : Int} {t0 : Timeval}
    (h : env.tvstart = some t0) :
    (run_random_one R g fuel lbl w env fsize msize alignment direct ms cal s).1
      = finish lbl .RND (rnd_rw w) fsize msize alignment direct ms cal s
          ([Sys.lseek 0, Sys.fsync, Sys.progress .RND (rnd_rw w) s]
            ++ (rnd_loop R w fsize direct ms s t0 env.iter fuel (if w = 2 then 1 else w) 0
                  (R.srand 1)).1.1)
          (rnd_loop R w fsize direct ms s t0 env.iter fuel (if w = 2 then 1 else w) 0
            (R.srand 1)).1.2 := by
  simp [run_random_one, h]

theorem run_random_one_reseeds {σ : Type} (R : Rng σ) (g h : σ) (fuel : Nat) (lbl : String)
    (w : Int) (env : RunEnv) (fsize msize alignment direct ms cal s : Int) :
    (run_random_one R g fuel lbl w env fsize msize alignment direct ms cal s).1
      = (run_random_one R h fuel lbl w env fsize msize alignment direct ms cal s).1 := rfl

theorem runs_run_sequential_one (fuel : Nat) (lbl : String) (w : Int) (env : RunEnv)
    (fsize msize alignment direct ms cal s : Int) :
    runs (run_sequential_one fuel lbl w env fsize msize alignment direct ms cal s).trace
        = [(.SEQ, seq_rw w, s)]
    ∧ blocks (run_sequential_one fuel lbl w env fsize msize alignment direct ms cal s).trace
        = [s] := by
  have hq : ∀ t0, runs (seq_loop w direct ms s t0 env.iter fuel fsize 0).1 = [] := by
    intro t0
    have := (seq_loop_quiet w direct ms s t0 env.iter fuel fsize 0).2.1
    simp only [blocks, runs, List.filterMap_eq_nil_iff] at this ⊢
    intro a ha
    have := this a ha
    cases a <;> simp_all
  cases h : env.tvstart with
  | none => rw [run_sequential_one_none h]; simp [runs, blocks]
  | some t0 =>
    rw [run_sequential_one_some h]
    obtain ⟨hb, hr, _, _⟩ := finish_quiet lbl .SEQ (seq_rw w) fsize msize alignment direct ms cal s
      ([Sys.lseek 0, Sys.fsync, Sys.progress .SEQ (seq_rw w) s]
        ++ (seq_loop w direct ms s t0 env.iter fuel fsize 0).1)
      (seq_loop w direct ms s t0 env.iter fuel fsize 0).2
    rw [hb, hr, runs_append, blocks_append, hq t0, (seq_loop_quiet _ _ _ _ _ _ fuel fsize 0).2.1]
    simp [runs, blocks]

theorem runs_run_random_one {σ : Type} (R : Rng σ) (g : σ) (fuel : Nat) (lbl : String)
    (w : Int) (env : RunEnv) (fsize msize alignment direct ms cal s : Int) :
    runs (run_random_one R g fuel lbl w env fsize msize alignment direct ms cal s).1.trace
        = [(.RND, rnd_rw w, s)]
    ∧ blocks (run_random_one R g fuel lbl w env fsize msize alignment direct ms cal s).1.trace
        = [s] := by
  have hq : ∀ t0, runs (rnd_loop R w fsize direct ms s t0 env.iter fuel
      (if w = 2 then 1 else w) 0 (R.srand 1)).1.1 = [] := by
    intro t0
    have := (rnd_loop_quiet R w fsize direct ms s t0 env.iter fuel (if w = 2 then 1 else w) 0
      (R.srand 1)).2
    simp only [blocks, runs, List.filterMap_eq_nil_iff] at this ⊢
    intro a ha
    have := this a ha
    cases a <;> simp_all
  cases h : env.tvstart with
  | none => rw [run_random_one_none h]; simp [runs, blocks]
  | some t0 =>
    rw [run_random_one_some h]
    obtain ⟨hb, hr, _, _⟩ := finish_quiet lbl .RND (rnd_rw w) fsize msize alignment direct ms cal s
      ([Sys.lseek 0, Sys.fsync, Sys.progress .RND (rnd_rw w) s]
        ++ (rnd_loop R w fsize direct ms s t0 env.iter fuel (if w = 2 then 1 else w) 0
              (R.srand 1)).1.1)
      (rnd_loop R w fsize direct ms s t0 env.iter fuel (if w = 2 then 1 else w) 0
        (R.srand 1)).1.2
    rw [hb, hr, runs_append, blocks_append, hq t0, (rnd_loop_quiet _ _ _ _ _ _ _ _ fuel _ 0 _).2]
    simp [runs, blocks]

theorem records_run_sequential_one (fuel : Nat) (lbl : String) (w : Int) (env : RunEnv)
    (fsize msize alignment direct ms cal s : Int) :
    ((run_sequential_one fuel lbl w env fsize msize alignment direct ms cal s).ret = .ok
      ∧ ∃ r t0 t,
        records (run_sequential_one fuel lbl w env fsize msize alignment direct ms cal s).trace
          = [r]
        ∧ env.tvstart = some t0 ∧ 1 ≤ r.num_iterations
        ∧ (env.iter (r.num_iterations - 1)).tvend = some t
        ∧ report lbl .SEQ (seq_rw w) fsize msize alignment direct ms s r.num_iterations
            (corrected_usecs (timersub t t0) r.num_iterations cal) = some r)
    ∨ ((run_sequential_one fuel lbl w env fsize msize alignment direct ms cal s).ret ≠ .ok
      ∧ records (run_sequential_one fuel lbl w env fsize msize alignment direct ms cal s).trace
          = []) := by
  cases h : env.tvstart with
  | none => right; rw [run_sequential_one_none h]; simp [records]
  | some t0 =>
    rw [run_sequential_one_some h]
    rcases finish_cases lbl .SEQ (seq_rw w) fsize msize alignment direct ms cal s
      ([Sys.lseek 0, Sys.fsync, Sys.progress .SEQ (seq_rw w) s]
        ++ (seq_loop w direct ms s t0 env.iter fuel fsize 0).1)
      (seq_loop w direct ms s t0 env.iter fuel fsize 0).2 with
      ⟨tvdiff, n, r, he, hr, hret, htr⟩ | ⟨hret, htr⟩
    · left
      obtain ⟨hn, t, ht, hd⟩ := seq_loop_exit fuel fsize 0 he
      have hrn := (report_some hr).1
      refine ⟨hret, r, t0, t, ?_, rfl, by omega, by rw [hrn]; exact ht, ?_⟩
      · rw [htr, records_append, records_append, (seq_loop_quiet _ _ _ _ _ _ fuel fsize 0).1]
        simp [records]
      · rw [hrn, ← hd]; exact hr
    · right
      refine ⟨hret, ?_⟩
      rw [htr, records_append, (seq_loop_quiet _ _ _ _ _ _ fuel fsize 0).1]
      simp [records]

theorem records_run_random_one {σ : Type} (R : Rng σ) (g : σ) (fuel : Nat) (lbl : String)
    (w : Int) (env : RunEnv) (fsize msize alignment direct ms cal s : Int) :
    ((run_random_one R g fuel lbl w env fsize msize alignment direct ms cal s).1.ret = .ok
      ∧ ∃ r t0 t,
        records (run_random_one R g fuel lbl w env fsize msize alignment direct ms cal s).1.trace
          = [r]
        ∧ env.tvstart = some t0 ∧ 1 ≤ r.num_iterations
        ∧ (env.iter (r.num_iterations - 1)).tvend = some t
        ∧ report lbl .RND (rnd_rw w) fsize msize alignment direct ms s r.num_iterations
            (corrected_usecs (timersub t t0) r.num_iterations cal) = some r)
    ∨ ((run_random_one R g fuel lbl w env fsize msize alignment direct ms cal s).1.ret ≠ .ok
      ∧ records (run_random_one R g fuel lbl w env fsize msize alignment direct ms cal s).1.trace
          = []) := by
  cases h : env.tvstart with
  | none => right; rw [run_random_one_none h]; simp [records]
  | some t0 =>
    rw [run_random_one_some h]
    rcases finish_cases lbl .RND (rnd_rw w) fsize msize alignment direct ms cal s
      ([Sys.lseek 0, Sys.fsync, Sys.progress .RND (rnd_rw w) s]
        ++ (rnd_loop R w fsize direct ms s t0 env.iter fuel (if w = 2 then 1 else w) 0
              (R.srand 1)).1.1)
      (rnd_loop R w fsize direct ms s t0 env.iter fuel (if w = 2 then 1 else w) 0
        (R.srand 1)).1.2 with
      ⟨tvdiff, n, r, he, hr, hret, htr⟩ | ⟨hret, htr⟩
    · left
      obtain ⟨hn, t, ht, hd⟩ := rnd_loop_exit fuel _ 0 _ he
      have hrn := (report_some hr).1
      refine ⟨hret, r, t0, t, ?_, rfl, by omega, by rw [hrn]; exact ht, ?_⟩
      · rw [htr, records_append, records_append, (rnd_loop_quiet _ _ _ _ _ _ _ _ fuel _ 0 _).1]
        simp [records]
      · rw [hrn, ← hd]; exact hr
    · right
      refine ⟨hret, ?_⟩
      rw [htr, records_append, (rnd_loop_quiet _ _ _ _ _ _ _ _ fuel _ 0 _).1]
      simp [records]

/-! ## Lemmas on the sweep loop -/

theorem sweep_loop_stop {σ : Type} (run : σ → Nat → Int → Result × σ) (msize : Int)
    (fuel k : Nat) (s : Int) (g : σ) (h : ¬ s ≤ msize) :
    sweep_loop run msize fuel k s g = ({ ret := .ok, trace := [] }, g) := by
  cases fuel <;> simp [sweep_loop, h]

theorem sweep_loop_first_not_ok {σ : Type} (run : σ → Nat → Int → Result × σ) (msize : Int)
    (fuel k : Nat) (s : Int) (g : σ) (h : s ≤ msize) (hr : (run g k s).1.ret ≠ .ok) :
    sweep_loop run msize (fuel + 1) k s g = run g k s := by
  rw [sweep_loop, if_pos h]
  cases hret : (run g k s).1.ret with
  | ok => exact absurd hret hr
  | failed => simp only [hret]
  | sigfpe => simp only [hret]
  | pending => simp only [hret]

theorem sweep_loop_first_ok {σ : Type} (run : σ → Nat → Int → Result × σ) (msize : Int)
    (fuel k : Nat) (s : Int) (g : σ) (h : s ≤ msize) (hr : (run g k s).1.ret = .ok) :
    (sweep_loop run msize (fuel + 1) k s g).1.ret
        = (sweep_loop run msize fuel (k + 1) (s * 2) (run g k s).2).1.ret
    ∧ (sweep_loop run msize (fuel + 1) k s g).1.trace
        = (run g k s).1.trace
          ++ (sweep_loop run msize fuel (k + 1) (s * 2) (run g k s).2).1.trace := by
  rw [sweep_loop]
  simp only [h, if_true]
  split
  · exact ⟨rfl, rfl⟩
  · rename_i hne; exact absurd hr (hne)

theorem sweep_loop_unroll {σ : Type} (run : σ → Nat → Int → Result × σ)
    (out : Nat → Int → Result) (hout : ∀ g k s, (run g k s).1 = out k s) (msize : Int) :
    ∀ (j0 fuel k : Nat) (s : Int) (g : σ), j0 ≤ fuel →
      (∀ j < j0, s * 2 ^ j ≤ msize ∧ (out (k + j) (s * 2 ^ j)).ret = .ok) →
      ∃ g1, (sweep_loop run msize fuel k s g).1.ret
              = (sweep_loop run msize (fuel - j0) (k + j0) (s * 2 ^ j0) g1).1.ret
          ∧ (sweep_loop run msize fuel k s g).1.trace
              = sweep_traces out j0 k s
                ++ (sweep_loop run msize (fuel - j0) (k + j0) (s * 2 ^ j0) g1).1.trace := by
  intro j0
  induction j0 with
  | zero => intro fuel k s g _ _; exact ⟨g, by simp, by simp [sweep_traces]⟩
  | succ n ih =>
    intro fuel k s g hf hok
    obtain ⟨f, rfl⟩ : ∃ f, fuel = f + 1 := ⟨fuel - 1, by omega⟩
    have h0 := hok 0 (by omega)
    simp only [pow_zero, mul_one, Nat.add_zero] at h0
    obtain ⟨e1, e2⟩ := sweep_loop_first_ok run msize f k s g h0.1 (by rw [hout]; exact h0.2)
    obtain ⟨g1, i1, i2⟩ := ih f (k + 1) (s * 2) (run g k s).2 (by omega) (by
      intro j hj
      have := hok (j + 1) (by omega)
      have e : s * 2 ^ (j + 1) = s * 2 * 2 ^ j := by ring
      have e3 : k + 1 + j = k + (j + 1) := by omega
      rw [e3, ← e]
      exact this)
    have e4 : s * 2 * 2 ^ n = s * 2 ^ (n + 1) := by ring
    have e5 : k + 1 + n = k + (n + 1) := by omega
    have e6 : f + 1 - (n + 1) = f - n := by omega
    rw [e4, e5] at i1 i2
    refine ⟨g1, ?_, ?_⟩
    · rw [e1, i1, e6]
    · rw [e2, i2, e6, hout]
      simp [sweep_traces]

theorem blocks_sweep_traces (out : Nat → Int → Result)
    (hb : ∀ k s, blocks (out k s).trace = [s]) :
    ∀ (n k : Nat) (s : Int),
      blocks (sweep_traces out n k s) = (List.range n).map (fun j => s * 2 ^ j) := by
  intro n
  induction n with
  | zero => intro k s; simp [sweep_traces, blocks]
  | succ n ih =>
    intro k s
    rw [sweep_traces, blocks_append, hb, ih, List.range_succ_eq_map]
    simp only [List.map_cons, List.map_map, pow_zero, mul_one, List.singleton_append]
    congr 1
    apply List.map_congr_left
    intro j _
    simp only [Function.comp_apply, pow_succ]
    ring

theorem records_sweep_traces (out : Nat → Int → Result)
    (hr : ∀ k s, (out k s).ret = .ok → (records (out k s).trace).length = 1) :
    ∀ (n k : Nat) (s : Int), (∀ j < n, (out (k + j) (s * 2 ^ j)).ret = .ok) →
      (records (sweep_traces out n k s)).length = n := by
  intro n
  induction n with
  | zero => intro k s _; simp [sweep_traces, records]
  | succ n ih =>
    intro k s hok
    have h0 := hok 0 (by omega)
    simp only [pow_zero, mul_one, Nat.add_zero] at h0
    rw [sweep_traces, records_append, List.length_append, hr k s h0, ih (k + 1) (s * 2)]
    · omega
    · intro j hj
      have := hok (j + 1) (by omega)
      have e : s * 2 ^ (j + 1) = s * 2 * 2 ^ j := by ring
      have e3 : k + 1 + j = k + (j + 1) := by omega
      rw [e3, ← e]
      exact this

theorem sweep_loop_failed {σ : Type} (run : σ → Nat → Int → Result × σ)
    (out : Nat → Int → Result) (hout : ∀ g k s, (run g k s).1 = out k s) (msize : Int) :
    ∀ (fuel k : Nat) (s : Int) (g : σ),
      (sweep_loop run msize fuel k s g).1.ret = .failed →
      ∃ j0, j0 < fuel ∧ (∀ j < j0, s * 2 ^ j ≤ msize ∧ (out (k + j) (s * 2 ^ j)).ret = .ok)
        ∧ s * 2 ^ j0 ≤ msize ∧ (out (k + j0) (s * 2 ^ j0)).ret = .failed := by
  intro fuel
  induction fuel with
  | zero =>
    intro k s g h
    rw [sweep_loop] at h
    split_ifs at h
  | succ f ih =>
    intro k s g h
    by_cases hs : s ≤ msize
    · by_cases hr : (run g k s).1.ret = .ok
      · rw [(sweep_loop_first_ok run msize f k s g hs hr).1] at h
        obtain ⟨j0, hj0, hpre, hle, hfail⟩ := ih _ _ _ h
        refine ⟨j0 + 1, by omega, ?_, ?_, ?_⟩
        · intro j hj
          cases j with
          | zero => simpa [← hout g] using And.intro hs hr
          | succ i =>
            have := hpre i (by omega)
            have e : s * 2 ^ (i + 1) = s * 2 * 2 ^ i := by ring
            have e3 : k + (i + 1) = k + 1 + i := by omega
            rw [e3, e]
            exact this
        · have e : s * 2 ^ (j0 + 1) = s * 2 * 2 ^ j0 := by ring
          rw [e]; exact hle
        · have e : s * 2 ^ (j0 + 1) = s * 2 * 2 ^ j0 := by ring
          have e3 : k + (j0 + 1) = k + 1 + j0 := by omega
          rw [e3, e]; exact hfail
      · rw [sweep_loop_first_not_ok run msize f k s g hs hr] at h
        exact ⟨0, by omega, by intro j hj; omega, by simpa using hs, by simpa [← hout g] using h⟩
    · rw [sweep_loop_stop run msize _ k s g hs] at h
      cases h

theorem sweep_traces_succ (out : Nat → Int → Result) :
    ∀ (n k : Nat) (s : Int),
      sweep_traces out (n + 1) k s
        = sweep_traces out n k s ++ (out (k + n) (s * 2 ^ n)).trace := by
  intro n
  induction n with
  | zero => intro k s; simp [sweep_traces]
  | succ n ih =>
    intro k s
    rw [sweep_traces, ih (k + 1) (s * 2)]
    have e : s * 2 * 2 ^ n = s * 2 ^ (n + 1) := by ring
    have e3 : k + 1 + n = k + (n + 1) := by omega
    rw [e, e3]
    conv_rhs => rw [sweep_traces]
    simp [List.append_assoc]

theorem sweep_loop_all_ok {σ : Type} (run : σ → Nat → Int → Result × σ)
    (out : Nat → Int → Result) (hout : ∀ g k s, (run g k s).1 = out k s) (msize : Int)
    (m fuel : Nat) (s : Int) (g : σ) (hm : m ≤ fuel)
    (hle : ∀ j < m, s * 2 ^ j ≤ msize) (hgt : msize < s * 2 ^ m)
    (hok : ∀ j < m, (out j (s * 2 ^ j)).ret = .ok) :
    (sweep_loop run msize fuel 0 s g).1.ret = .ok
    ∧ (sweep_loop run msize fuel 0 s g).1.trace = sweep_traces out m 0 s := by
  obtain ⟨g1, e1, e2⟩ := sweep_loop_unroll run out hout msize m fuel 0 s g hm (by
    intro j hj
    rw [Nat.zero_add]
    exact ⟨hle j hj, hok j hj⟩)
  rw [sweep_loop_stop run msize _ _ _ g1 (by omega)] at e1 e2
  exact ⟨e1, by simpa using e2⟩

theorem sweep_loop_fail_fast {σ : Type} (run : σ → Nat → Int → Result × σ)
    (out : Nat → Int → Result) (hout : ∀ g k s, (run g k s).1 = out k s) (msize : Int)
    (j0 fuel : Nat) (s : Int) (g : σ) (hf : j0 < fuel)
    (hpre : ∀ j < j0, s * 2 ^ j ≤ msize ∧ (out j (s * 2 ^ j)).ret = .ok)
    (hle : s * 2 ^ j0 ≤ msize) (hfail : (out j0 (s * 2 ^ j0)).ret ≠ .ok) :
    (sweep_loop run msize fuel 0 s g).1.ret = (out j0 (s * 2 ^ j0)).ret
    ∧ (sweep_loop run msize fuel 0 s g).1.trace = sweep_traces out (j0 + 1) 0 s := by
  obtain ⟨g1, e1, e2⟩ := sweep_loop_unroll run out hout msize j0 fuel 0 s g (by omega) (by
    intro j hj
    rw [Nat.zero_add]
    exact hpre j hj)
  obtain ⟨f, hfe⟩ : ∃ f, fuel - j0 = f + 1 := ⟨fuel - j0 - 1, by omega⟩
  rw [hfe, sweep_loop_first_not_ok run msize f _ _ g1 hle (by rw [hout]; simpa using hfail),
    hout] at e1 e2
  rw [Nat.zero_add] at e1 e2
  refine ⟨e1, ?_⟩
  rw [e2, sweep_traces_succ, Nat.zero_add]

theorem run_sequential_all_eq {σ : Type} (g : σ) (fuel : Nat) (lbl : String) (w : Int)
    (env : Nat → RunEnv) (fsize msize alignment direct ms cal : Int) :
    run_sequential_all g fuel lbl w env fsize msize alignment direct ms cal
      = sweep_loop (fun g k s =>
          (seq_run fuel lbl w env fsize msize alignment direct ms cal k s, g))
          msize fuel 0 (first_iosize alignment direct) g := rfl

theorem run_random_all_eq {σ : Type} (R : Rng σ) (g : σ) (fuel : Nat) (lbl : String) (w : Int)
    (env : Nat → RunEnv) (fsize msize alignment direct ms cal : Int) :
    run_random_all R g fuel lbl w env fsize msize alignment direct ms cal
      = sweep_loop (fun g k s =>
          run_random_one R g fuel lbl w (env k) fsize msize alignment direct ms cal s)
          msize fuel 0 (first_iosize alignment direct) g := rfl

theorem blocks_seq_run (fuel : Nat) (lbl : String) (w : Int) (env : Nat → RunEnv)
    (fsize msize alignment direct ms cal : Int) (k : Nat) (s : Int) :
    blocks (seq_run fuel lbl w env fsize msize alignment direct ms cal k s).trace = [s] :=
  (runs_run_sequential_one fuel lbl w (env k) fsize msize alignment direct ms cal s).2

theorem blocks_rnd_run {σ : Type} (R : Rng σ) (g : σ) (fuel : Nat) (lbl : String) (w : Int)
    (env : Nat → RunEnv) (fsize msize alignment direct ms cal : Int) (k : Nat) (s : Int) :
    blocks (rnd_run R g fuel lbl w env fsize msize alignment direct ms cal k s).trace = [s] :=
  (runs_run_random_one R g fuel lbl w (env k) fsize msize alignment direct ms cal s).2

theorem records_length_seq_run (fuel : Nat) (lbl : String) (w : Int) (env : Nat → RunEnv)
    (fsize msize alignment direct ms cal : Int) (k : Nat) (s : Int) :
    (records (seq_run fuel lbl w env fsize msize alignment direct ms cal k s).trace).length
      = if (seq_run fuel lbl w env fsize msize alignment direct ms cal k s).ret = .ok
        then 1 else 0 := by
  unfold seq_run
  rcases records_run_sequential_one fuel lbl w (env k) fsize msize alignment direct ms cal s with
    ⟨hret, r, _, _, hrec, _⟩ | ⟨hret, hrec⟩
  · rw [hrec, if_pos hret]; rfl
  · rw [hrec, if_neg hret]; rfl

theorem records_length_rnd_run {σ : Type} (R : Rng σ) (g : σ) (fuel : Nat) (lbl : String)
    (w : Int) (env : Nat → RunEnv) (fsize msize alignment direct ms cal : Int) (k : Nat)
    (s : Int) :
    (records (rnd_run R g fuel lbl w env fsize msize alignment direct ms cal k s).trace).length
      = if (rnd_run R g fuel lbl w env fsize msize alignment direct ms cal k s).ret = .ok
        then 1 else 0 := by
  unfold rnd_run
  rcases records_run_random_one R g fuel lbl w (env k) fsize msize alignment direct ms cal s with
    ⟨hret, r, _, _, hrec, _⟩ | ⟨hret, hrec⟩
  · rw [hrec, if_pos hret]; rfl
  · rw [hrec, if_neg hret]; rfl

theorem sweep_fail_fast_generic {σ : Type} (run : σ → Nat → Int → Result × σ)
    (out : Nat → Int → Result) (hout : ∀ g k s, (run g k s).1 = out k s)
    (hb : ∀ k s, blocks (out k s).trace = [s])
    (hr : ∀ k s, (records (out k s).trace).length = if (out k s).ret = .ok then 1 else 0)
    (msize : Int) (fuel : Nat) (s : Int) (g : σ) :
    ((sweep_loop run msize fuel 0 s g).1.ret = .failed ↔
      ∃ j0, j0 < fuel ∧ (∀ j < j0, s * 2 ^ j ≤ msize ∧ (out j (s * 2 ^ j)).ret = .ok)
        ∧ s * 2 ^ j0 ≤ msize ∧ (out j0 (s * 2 ^ j0)).ret = .failed)
    ∧ (∀ j0, j0 < fuel → (∀ j < j0, s * 2 ^ j ≤ msize ∧ (out j (s * 2 ^ j)).ret = .ok) →
        s * 2 ^ j0 ≤ msize → (out j0 (s * 2 ^ j0)).ret = .failed →
        (sweep_loop run msize fuel 0 s g).1.trace = sweep_traces out (j0 + 1) 0 s
        ∧ blocks (sweep_loop run msize fuel 0 s g).1.trace
            = (List.range (j0 + 1)).map (fun j => s * 2 ^ j)
        ∧ records (sweep_loop run msize fuel 0 s g).1.trace
            = records (sweep_traces out j0 0 s)
        ∧ (records (sweep_loop run msize fuel 0 s g).1.trace).length = j0)
    ∧ ((∀ j, j < fuel → (out j (s * 2 ^ j)).ret = .ok ∨ (out j (s * 2 ^ j)).ret = .failed) →
        ((sweep_loop run msize fuel 0 s g).1.ret = .failed ↔
          ∃ j, j < fuel ∧ (∀ i ≤ j, s * 2 ^ i ≤ msize) ∧ (out j (s * 2 ^ j)).ret = .failed)) := by
  have main : ∀ j0, j0 < fuel →
      (∀ j < j0, s * 2 ^ j ≤ msize ∧ (out j (s * 2 ^ j)).ret = .ok) →
      s * 2 ^ j0 ≤ msize → (out j0 (s * 2 ^ j0)).ret = .failed →
      (sweep_loop run msize fuel 0 s g).1.ret = .failed
      ∧ (sweep_loop run msize fuel 0 s g).1.trace = sweep_traces out (j0 + 1) 0 s := by
    intro j0 hj0 hpre hle hfail
    have := sweep_loop_fail_fast run out hout msize j0 fuel s g hj0 hpre hle
      (by rw [hfail]; decide)
    rw [hfail] at this
    exact this
  have first : (sweep_loop run msize fuel 0 s g).1.ret = .failed →
      ∃ j0, j0 < fuel ∧ (∀ j < j0, s * 2 ^ j ≤ msize ∧ (out j (s * 2 ^ j)).ret = .ok)
        ∧ s * 2 ^ j0 ≤ msize ∧ (out j0 (s * 2 ^ j0)).ret = .failed := by
    intro h
    obtain ⟨j0, h1, h2, h3, h4⟩ := sweep_loop_failed run out hout msize fuel 0 s g h
    refine ⟨j0, h1, ?_, h3, by simpa using h4⟩
    intro j hj
    simpa using h2 j hj
  refine ⟨⟨first, ?_⟩, ?_, ?_⟩
  · rintro ⟨j0, h1, h2, h3, h4⟩
    exact (main j0 h1 h2 h3 h4).1
  rotate_left
  · intro h2v
    constructor
    · intro h
      obtain ⟨j0, h1, h2, h3, h4⟩ := first h
      refine ⟨j0, h1, ?_, h4⟩
      intro i hi
      rcases Nat.lt_or_ge i j0 with hlt | hge
      · exact (h2 i hlt).1
      · have : i = j0 := by omega
        rw [this]
        exact h3
    · rintro ⟨j, hj, hsz, hfail⟩
      classical
      have hex : ∃ i, (out i (s * 2 ^ i)).ret = .failed := ⟨j, hfail⟩
      have hle : Nat.find hex ≤ j := Nat.find_min' hex hfail
      refine (main (Nat.find hex) (by omega) ?_ (hsz _ hle) (Nat.find_spec hex)).1
      intro i hi
      refine ⟨hsz i (by omega), ?_⟩
      rcases h2v i (by omega) with h | h
      · exact h
      · exact absurd h (Nat.find_min hex hi)
  · intro j0 hj0 hpre hle hfail
    obtain ⟨_, htr⟩ := main j0 hj0 hpre hle hfail
    have hrec : records (sweep_traces out (j0 + 1) 0 s) = records (sweep_traces out j0 0 s) := by
      rw [sweep_traces_succ, records_append]
      have := hr (0 + j0) (s * 2 ^ j0)
      rw [Nat.zero_add] at this ⊢
      rw [hfail] at this
      simp only [reduceCtorEq, if_false, List.length_eq_zero] at this
      rw [this, List.append_nil]
    refine ⟨htr, ?_, ?_, ?_⟩
    · rw [htr]; exact blocks_sweep_traces out hb _ 0 s
    · rw [htr, hrec]
    · rw [htr, hrec]
      apply records_sweep_traces out
      · intro k s hok
        rw [hr, if_pos hok]
      · intro j hj
        rw [Nat.zero_add]
        exact (hpre j hj).2

theorem records_sweep_traces_forall (out : Nat → Int → Result) (P : Record → Prop)
    (hP : ∀ k s r, r ∈ records (out k s).trace → P r) :
    ∀ (n k : Nat) (s : Int) (r : Record), r ∈ records (sweep_traces out n k s) → P r := by
  intro n
  induction n with
  | zero => intro k s r h; simp [sweep_traces, records] at h
  | succ n ih =>
    intro k s r h
    rw [sweep_traces, records_append, List.mem_append] at h
    rcases h with h | h
    · exact hP k s r h
    · exact ih _ _ r h

theorem records_iosize_sweep_traces (out : Nat → Int → Result)
    (hr : ∀ k s, (out k s).ret = .ok → (records (out k s).trace).map Record.iosize = [s]) :
    ∀ (n k : Nat) (s : Int), (∀ j < n, (out (k + j) (s * 2 ^ j)).ret = .ok) →
      (records (sweep_traces out n k s)).map Record.iosize
        = (List.range n).map (fun j => s * 2 ^ j) := by
  intro n
  induction n with
  | zero => intro k s _; simp [sweep_traces, records]
  | succ n ih =>
    intro k s hok
    have h0 := hok 0 (by omega)
    simp only [pow_zero, mul_one, Nat.add_zero] at h0
    rw [sweep_traces, records_append, List.map_append, hr k s h0, ih (k + 1) (s * 2),
      List.range_succ_eq_map]
    · simp only [List.map_cons, List.map_map, pow_zero, mul_one, List.singleton_append]
      congr 1
      apply List.map_congr_left
      intro j _
      simp only [Function.comp_apply, pow_succ]
      ring
    · intro j hj
      have := hok (j + 1) (by omega)
      have e : s * 2 ^ (j + 1) = s * 2 * 2 ^ j := by ring
      have e3 : k + 1 + j = k + (j + 1) := by omega
      rw [e3, ← e]
      exact this

theorem records_iosize_seq_run (fuel : Nat) (lbl : String) (w : Int) (env : Nat → RunEnv)
    (fsize msize alignment direct ms cal : Int) (k : Nat) (s : Int)
    (hok : (seq_run fuel lbl w env fsize msize alignment direct ms cal k s).ret = .ok) :
    (records (seq_run fuel lbl w env fsize msize alignment direct ms cal k s).trace).map
      Record.iosize = [s] := by
  unfold seq_run at hok ⊢
  rcases records_run_sequential_one fuel lbl w (env k) fsize msize alignment direct ms cal s with
    ⟨_, r, _, _, hrec, _, _, _, hrep⟩ | ⟨hret, _⟩
  · rw [hrec]
    simp [(report_some hrep).2.2.1]
  · exact absurd hok hret

theorem one_le_num_iterations_seq_run (fuel : Nat) (lbl : String) (w : Int)
    (env : Nat → RunEnv) (fsize msize alignment direct ms cal : Int) (k : Nat) (s : Int)
    (r : Record)
    (h : r ∈ records (seq_run fuel lbl w env fsize msize alignment direct ms cal k s).trace) :
    1 ≤ r.num_iterations := by
  unfold seq_run at h
  rcases records_run_sequential_one fuel lbl w (env k) fsize msize alignment direct ms cal s with
    ⟨_, r1, _, _, hrec, _, hn, _⟩ | ⟨_, hrec⟩
  · rw [hrec] at h
    simp at h
    subst h
    exact hn
  · rw [hrec] at h
    simp at h

/-! ## Further lemmas on the runners -/

theorem bytes_left_after_eq_sub_sum (fsize : Int) (iter : Nat → IterEv) (k : Nat) :
    bytes_left_after fsize iter k
      = fsize - ((List.range k).map (fun j => (iter j).io)).sum := by
  induction k with
  | zero => simp [bytes_left_after]
  | succ k ih =>
    rw [bytes_left_after, ih, List.range_succ]
    simp
    ring

theorem bytes_left_after_full (fsize iosize : Int) (iter : Nat → IterEv) (k : Nat)
    (h : ∀ j < k, (iter j).io = iosize) :
    bytes_left_after fsize iter k = fsize - k * iosize := by
  induction k with
  | zero => simp [bytes_left_after]
  | succ k ih =>
    rw [bytes_left_after, ih (fun j hj => h j (by omega)), h k (by omega)]
    push_cast
    ring

theorem run_sequential_one_stops (fuel N : Nat) (lbl : String) (w : Int) (env : RunEnv)
    (fsize msize alignment direct ms cal s : Int) (t0 : Timeval)
    (hstart : env.tvstart = some t0) (hfuel : N < fuel)
    (hok : ∀ j ≤ N, 0 ≤ (env.iter j).io ∧ (env.iter j).tvend ≠ none)
    (hcont : ∀ j < N, elapsed_sec t0 (env.iter j) < ms
      ∧ s ≤ bytes_left_after fsize env.iter (j + 1))
    (hstop : ms ≤ elapsed_sec t0 (env.iter N) ∨ bytes_left_after fsize env.iter (N + 1) < s) :
    transfers (run_sequential_one fuel lbl w env fsize msize alignment direct ms cal s).trace
        = List.replicate (N + 1) (decide (w ≠ 0))
    ∧ ((run_sequential_one fuel lbl w env fsize msize alignment direct ms cal s).ret = .ok
      ∨ (run_sequential_one fuel lbl w env fsize msize alignment direct ms cal s).ret = .sigfpe)
    ∧ ∀ r ∈ records (run_sequential_one fuel lbl w env fsize msize alignment direct ms cal
        s).trace, r.num_iterations = N + 1 := by
  obtain ⟨tr, t, ht, hloop, htr⟩ := seq_loop_run w direct ms s fsize t0 env.iter N
    fuel 0 (by omega) (by omega)
    (fun j _ h => hok j h) (fun j _ h => hcont j h) hstop
  simp only [bytes_left_after] at hloop
  rw [run_sequential_one_some hstart, hloop]
  obtain ⟨_, _, htf, _⟩ := finish_quiet lbl .SEQ (seq_rw w) fsize msize alignment direct ms cal s
    ([Sys.lseek 0, Sys.fsync, Sys.progress .SEQ (seq_rw w) s] ++ tr)
    (.exited (timersub t t0) (N + 1))
  refine ⟨?_, ?_, ?_⟩
  · rw [htf, transfers_append, htr]
    simp [transfers]
  · cases hrep : report lbl .SEQ (seq_rw w) fsize msize alignment direct ms s (N + 1)
        (corrected_usecs (timersub t t0) (N + 1) cal) with
    | none => right; simp [finish, hrep]
    | some r => left; simp [finish, hrep]
  · intro r hr
    have hq : records tr = [] := by
      have := (seq_loop_quiet w direct ms s t0 env.iter fuel fsize 0).1
      rw [hloop] at this
      exact this
    have hpre : records ([Sys.lseek 0, Sys.fsync, Sys.progress .SEQ (seq_rw w) s] ++ tr)
        = [] := by
      rw [records_append, hq]
      rfl
    cases hrep : report lbl .SEQ (seq_rw w) fsize msize alignment direct ms s (N + 1)
        (corrected_usecs (timersub t t0) (N + 1) cal) with
    | none =>
      simp only [finish, hrep] at hr
      rw [hpre] at hr
      cases hr
    | some r1 =>
      simp only [finish, hrep] at hr
      rw [records_append, hpre] at hr
      simp only [records, List.filterMap_cons, List.filterMap_nil, List.nil_append,
        List.mem_singleton] at hr
      subst hr
      exact (report_some hrep).1

theorem random_pos_in_file (r fsize iosize : Int) (hs : 1 ≤ iosize) (hf : 2 * iosize ≤ fsize)
    (hr : 0 ≤ r) :
    random_pos r fsize iosize = some (r % ((fsize - iosize) / iosize) * iosize)
    ∧ iosize ∣ r % ((fsize - iosize) / iosize) * iosize
    ∧ 0 ≤ r % ((fsize - iosize) / iosize) * iosize
    ∧ r % ((fsize - iosize) / iosize) * iosize < fsize - iosize := by
  have hd1 : 1 ≤ (fsize - iosize) / iosize :=
    (Int.le_ediv_iff_mul_le (by omega)).mpr (by omega)
  have htd : Int.tdiv (fsize - iosize) iosize = (fsize - iosize) / iosize :=
    Int.tdiv_eq_ediv (by omega) (by omega)
  have htm : Int.tmod r ((fsize - iosize) / iosize) = r % ((fsize - iosize) / iosize) :=
    Int.tmod_eq_emod hr (by omega)
  have hm0 : 0 ≤ r % ((fsize - iosize) / iosize) := Int.emod_nonneg r (by omega)
  have hm1 : r % ((fsize - iosize) / iosize) < (fsize - iosize) / iosize :=
    Int.emod_lt_of_pos r (by omega)
  have hlow : (fsize - iosize) / iosize * iosize ≤ fsize - iosize :=
    Int.ediv_mul_le _ (by omega)
  refine ⟨?_, Dvd.intro_left _ rfl, by positivity, ?_⟩
  · unfold random_pos cdiv cmod
    rw [if_neg (by omega)]
    simp only [htd]
    rw [if_neg (by omega)]
    simp only [htm]
  · have h1 : r % ((fsize - iosize) / iosize) + 1 ≤ (fsize - iosize) / iosize := by omega
    have h2 : (r % ((fsize - iosize) / iosize) + 1) * iosize
        ≤ (fsize - iosize) / iosize * iosize := mul_le_mul_of_nonneg_right h1 (by omega)
    nlinarith

theorem seeks_run_random_one {σ : Type} (R : Rng σ) (g : σ) (fuel : Nat) (lbl : String)
    (w : Int) (env : RunEnv) (fsize msize alignment direct ms cal s : Int) :
    ∃ t0, (seeks (run_random_one R g fuel lbl w env fsize msize alignment direct ms cal
        s).1.trace).tail
      = seeks (rnd_loop R w fsize direct ms s t0 env.iter fuel (if w = 2 then 1 else w) 0
          (R.srand 1)).1.1
      ∨ (seeks (run_random_one R g fuel lbl w env fsize msize alignment direct ms cal
        s).1.trace).tail = [] := by
  cases h : env.tvstart with
  | none =>
    refine ⟨⟨0, 0⟩, Or.inr ?_⟩
    rw [run_random_one_none h]
    simp [seeks]
  | some t0 =>
    refine ⟨t0, Or.inl ?_⟩
    rw [run_random_one_some h]
    obtain ⟨_, _, _, hs⟩ := finish_quiet lbl .RND (rnd_rw w) fsize msize alignment direct ms cal s
      ([Sys.lseek 0, Sys.fsync, Sys.progress .RND (rnd_rw w) s]
        ++ (rnd_loop R w fsize direct ms s t0 env.iter fuel (if w = 2 then 1 else w) 0
              (R.srand 1)).1.1)
      (rnd_loop R w fsize direct ms s t0 env.iter fuel (if w = 2 then 1 else w) 0
        (R.srand 1)).1.2
    rw [hs, seeks_append]
    simp [seeks]

theorem seeks_run_random_one_get {σ : Type} (R : Rng σ) (g : σ) (fuel : Nat) (lbl : String)
    (w : Int) (env : RunEnv) (fsize msize alignment direct ms cal s : Int) (k : Nat) (p : Int)
    (h : (seeks (run_random_one R g fuel lbl w env fsize msize alignment direct ms cal
        s).1.trace).tail[k]? = some p) :
    random_pos (rand_value R (R.srand 1) k) fsize s = some p := by
  obtain ⟨t0, ht | ht⟩ := seeks_run_random_one R g fuel lbl w env fsize msize alignment direct
    ms cal s
  · rw [ht] at h
    exact rnd_loop_seeks fuel _ 0 _ k p h
  · rw [ht] at h
    simp at h

theorem transfers_run_random_one {σ : Type} (R : Rng σ) (g : σ) (fuel : Nat) (lbl : String)
    (w : Int) (env : RunEnv) (fsize msize alignment direct ms cal s : Int) :
    (∃ t0, transfers (run_random_one R g fuel lbl w env fsize msize alignment direct ms cal
        s).1.trace
      = transfers (rnd_loop R w fsize direct ms s t0 env.iter fuel (if w = 2 then 1 else w) 0
          (R.srand 1)).1.1)
    ∨ transfers (run_random_one R g fuel lbl w env fsize msize alignment direct ms cal
        s).1.trace = [] := by
  cases h : env.tvstart with
  | none =>
    right
    rw [run_random_one_none h]
    simp [transfers]
  | some t0 =>
    left
    refine ⟨t0, ?_⟩
    rw [run_random_one_some h]
    obtain ⟨_, _, ht, _⟩ := finish_quiet lbl .RND (rnd_rw w) fsize msize alignment direct ms cal s
      ([Sys.lseek 0, Sys.fsync, Sys.progress .RND (rnd_rw w) s]
        ++ (rnd_loop R w fsize direct ms s t0 env.iter fuel (if w = 2 then 1 else w) 0
              (R.srand 1)).1.1)
      (rnd_loop R w fsize direct ms s t0 env.iter fuel (if w = 2 then 1 else w) 0
        (R.srand 1)).1.2
    rw [ht, transfers_append]
    simp [transfers]

theorem report_of_le (lbl : String) (t : IoType) (rw : RwName)
    (fsize msize alignment direct max_seconds iosize : Int) (n : Nat) (usecs : Int)
    (hn : 1 ≤ n) (hu : (n : Int) ≤ usecs) :
    ∃ r, report lbl t rw fsize msize alignment direct max_seconds iosize n usecs = some r
      ∧ r.avg_usecs_per_iteration = usecs / n
      ∧ r.iterations_per_second = 1000000 / (usecs / n)
      ∧ usecs / n ≠ 0 := by
  have hn0 : (0 : Int) < n := by exact_mod_cast hn
  have h1 : 1 ≤ usecs / n := (Int.le_ediv_iff_mul_le hn0).mpr (by omega)
  have e1 : Int.tdiv usecs n = usecs / n := Int.tdiv_eq_ediv (by omega) (by omega)
  have e2 : Int.tdiv 1000000 (usecs / n) = 1000000 / (usecs / n) :=
    Int.tdiv_eq_ediv (by norm_num) (by omega)
  refine ⟨{ lbl := lbl, iotype := t, rw := rw, fsize := fsize, msize := msize,
             alignment := alignment, direct := direct, max_seconds := max_seconds,
             iosize := iosize, num_iterations := n, usecs := usecs,
             iterations_per_second := 1000000 / (usecs / n),
             avg_usecs_per_iteration := usecs / n }, ?_, rfl, rfl, by omega⟩
  unfold report cdiv
  rw [if_neg (by omega)]
  simp only [e1]
  rw [if_neg (by omega)]
  simp only [e2]

theorem report_none_of_lt (lbl : String) (t : IoType) (rw : RwName)
    (fsize msize alignment direct max_seconds iosize : Int) (n : Nat) (usecs : Int)
    (hu0 : 0 ≤ usecs) (hu : usecs < n) :
    report lbl t rw fsize msize alignment direct max_seconds iosize n usecs = none := by
  have e1 : Int.tdiv usecs n = 0 := by
    rw [Int.tdiv_eq_ediv hu0 (by omega)]
    exact Int.ediv_eq_zero_of_lt hu0 hu
  unfold report cdiv
  rw [if_neg (by omega)]
  simp [e1]

/-! ## Lemmas on the orchestration -/

/-- C1: for every calibration value `cal >= 0`, the corrected elapsed time of lines
175-177 and 270-272 is `max 1 (tv_sec*1000000 + tv_usec - floor(n*cal/100000))` for
every raw elapsed time and iteration count, hence at least 1; and every record
printed by `run_sequential_one` or `run_random_one` carries an iteration count
`n >= 1` and, as `usecs`, that value for the time `tvdiff` between the start of the
run and the end of iteration `n`. -/
theorem C1_corrected_usecs (cal : Int) (hcal : 0 ≤ cal) :
    (∀ (tv_sec tv_usec : Int) (n : Nat),
      corrected_usecs ⟨tv_sec, tv_usec⟩ n cal
          = max 1 ((tv_sec * 1000000 + tv_usec) - ((n : Int) * cal) / 100000)
        ∧ 1 ≤ corrected_usecs ⟨tv_sec, tv_usec⟩ n cal)
    ∧ (∀ (fuel : Nat) (lbl : String) (writeops : Int) (env : RunEnv)
        (fsize msize alignment direct max_seconds iosize : Int) (r : Record),
        r ∈ records (run_sequential_one fuel lbl writeops env fsize msize alignment direct
              max_seconds cal iosize).trace →
        ∃ tvstart tvend, env.tvstart = some tvstart
          ∧ (env.iter (r.num_iterations - 1)).tvend = some tvend
          ∧ 1 ≤ r.num_iterations
          ∧ r.usecs = max 1 (((timersub tvend tvstart).tv_sec * 1000000
              + (timersub tvend tvstart).tv_usec) - ((r.num_iterations : Int) * cal) / 100000)
          ∧ 1 ≤ r.usecs)
    ∧ (∀ {σ : Type} (R : Rng σ) (g : σ) (fuel : Nat) (lbl : String) (writeops : Int)
        (env : RunEnv) (fsize msize alignment direct max_seconds iosize : Int) (r : Record),
        r ∈ records (run_random_one R g fuel lbl writeops env fsize msize alignment direct
              max_seconds cal iosize).1.trace →
        ∃ tvstart tvend, env.tvstart = some tvstart
          ∧ (env.iter (r.num_iterations - 1)).tvend = some tvend
          ∧ 1 ≤ r.num_iterations
          ∧ r.usecs = max 1 (((timersub tvend tvstart).tv_sec * 1000000
              + (timersub tvend tvstart).tv_usec) - ((r.num_iterations : Int) * cal) / 100000)
          ∧ 1 ≤ r.usecs) := by
  refine ⟨fun tv_sec tv_usec n => ⟨corrected_usecs_eq_max _ n cal hcal,
    one_le_corrected_usecs _ n cal⟩, ?_, ?_⟩
  · intro fuel lbl w env fsize msize alignment direct ms s r hr
    rcases records_run_sequential_one fuel lbl w env fsize msize alignment direct ms cal s with
      ⟨_, r', t0, t, hrec, h0, hn, ht, hrep⟩ | ⟨_, hrec⟩
    · rw [hrec] at hr
      simp at hr
      subst hr
      have hu := (report_some hrep).2.1
      refine ⟨t0, t, h0, ht, hn, ?_, ?_⟩
      · rw [hu]; exact corrected_usecs_eq_max _ _ cal hcal
      · rw [hu]; exact one_le_corrected_usecs _ _ cal
    · rw [hrec] at hr; simp at hr
  · intro σ R g fuel lbl w env fsize msize alignment direct ms s r hr
    rcases records_run_random_one R g fuel lbl w env fsize msize alignment direct ms cal s with
      ⟨_, r', t0, t, hrec, h0, hn, ht, hrep⟩ | ⟨_, hrec⟩
    · rw [hrec] at hr
      simp at hr
      subst hr
      have hu := (report_some hrep).2.1
      refine ⟨t0, t, h0, ht, hn, ?_, ?_⟩
      · rw [hu]; exact corrected_usecs_eq_max _ _ cal hcal
      · rw [hu]; exact one_le_corrected_usecs _ _ cal
    · rw [hrec] at hr; simp at hr

/-- C1, witness: 5 microseconds of raw time, 4 iterations and a calibration value
of 150000 give a correction of 6 and the corrected time `max 1 (5 - 6)`. -/
theorem C1_corrected_usecs_witness :
    (0 : Int) ≤ 150000
    ∧ (corrected_usecs ⟨0, 5⟩ 4 150000
        = max 1 ((0 * 1000000 + 5) - ((4 : Nat) : Int) * 150000 / 100000)
      ∧ 1 ≤ corrected_usecs ⟨0, 5⟩ 4 150000) :=
  ⟨by decide, (C1_corrected_usecs 150000 (by decide)).1 0 5 4⟩

/-! ## C2: the block sizes of a sweep -/

/-- C3 (as amended): in `run_sequential_one`, with `1 <= iosize <= fsize` and no I/O
or timer error, the loop stops after the first iteration at whose end the elapsed
whole seconds are `>= max_seconds` or `bytes_left < iosize`, where `bytes_left` is
`fsize` less the bytes the transfers actually returned: if that iteration has
index `N` the run makes exactly `N + 1` transfers and reports `N + 1` iterations.
A short transfer only lowers `bytes_left` by what it returned and the loop goes on
while `bytes_left >= iosize`. When no transfer returns more than `iosize` bytes
the bytes transferred never exceed `fsize`; when the time bound is never reached
and every transfer is full the run makes exactly `floor(fsize / iosize)`
iterations. -/
theorem C3_sequential_stop :
    (∀ (fuel N : Nat) (lbl : String) (writeops : Int) (env : RunEnv)
        (fsize msize alignment direct max_seconds cal iosize : Int) (tvstart : Timeval),
        env.tvstart = some tvstart → N < fuel → 1 ≤ iosize → iosize ≤ fsize →
        (∀ j ≤ N, 0 ≤ (env.iter j).io ∧ (env.iter j).tvend ≠ none) →
        (∀ j < N, elapsed_sec tvstart (env.iter j) < max_seconds
          ∧ iosize ≤ bytes_left_after fsize env.iter (j + 1)) →
        (max_seconds ≤ elapsed_sec tvstart (env.iter N)
          ∨ bytes_left_after fsize env.iter (N + 1) < iosize) →
        transfers (run_sequential_one fuel lbl writeops env fsize msize alignment direct
              max_seconds cal iosize).trace = List.replicate (N + 1) (decide (writeops ≠ 0))
        ∧ ((run_sequential_one fuel lbl writeops env fsize msize alignment direct
              max_seconds cal iosize).ret = .ok
          ∨ (run_sequential_one fuel lbl writeops env fsize msize alignment direct
              max_seconds cal iosize).ret = .sigfpe)
        ∧ (∀ r ∈ records (run_sequential_one fuel lbl writeops env fsize msize alignment direct
              max_seconds cal iosize).trace, r.num_iterations = N + 1)
        ∧ ((∀ j ≤ N, (env.iter j).io ≤ iosize) →
            ∀ k ≤ N + 1, ((List.range k).map (fun j => (env.iter j).io)).sum ≤ fsize))
    ∧ (∀ (fuel : Nat) (lbl : String) (writeops : Int) (env : RunEnv)
        (fsize msize alignment direct max_seconds cal iosize : Int) (tvstart : Timeval),
        env.tvstart = some tvstart → 1 ≤ iosize → iosize ≤ fsize →
        (∀ j, (env.iter j).io = iosize ∧ (env.iter j).tvend ≠ none
          ∧ elapsed_sec tvstart (env.iter j) < max_seconds) →
        (fsize / iosize).toNat ≤ fuel →
        (transfers (run_sequential_one fuel lbl writeops env fsize msize alignment direct
              max_seconds cal iosize).trace).length = (fsize / iosize).toNat
        ∧ ((run_sequential_one fuel lbl writeops env fsize msize alignment direct
              max_seconds cal iosize).ret = .ok
          ∨ (run_sequential_one fuel lbl writeops env fsize msize alignment direct
              max_seconds cal iosize).ret = .sigfpe)
        ∧ (∀ r ∈ records (run_sequential_one fuel lbl writeops env fsize msize alignment direct
              max_seconds cal iosize).trace, (r.num_iterations : Int) = fsize / iosize)) := by
  constructor
  · intro fuel N lbl w env fsize msize alignment direct ms cal s t0 hstart hfuel hs1 hs2 hok
      hcont hstop
    obtain ⟨h1, h2, h3⟩ := run_sequential_one_stops fuel N lbl w env fsize msize alignment direct
      ms cal s t0 hstart hfuel hok hcont hstop
    refine ⟨h1, h2, h3, ?_⟩
    intro hle k hk
    have key : ∀ k ≤ N + 1, 0 ≤ bytes_left_after fsize env.iter k := by
      intro k hk
      cases k with
      | zero => simp only [bytes_left_after]; omega
      | succ j =>
        have hj : s ≤ bytes_left_after fsize env.iter j := by
          cases j with
          | zero => simpa [bytes_left_after] using hs2
          | succ i => exact (hcont i (by omega)).2
        have := hle j (by omega)
        simp only [bytes_left_after]
        omega
    have := key k hk
    rw [bytes_left_after_eq_sub_sum] at this
    omega
  · intro fuel lbl w env fsize msize alignment direct ms cal s t0 hstart hs1 hs2 hall hfuel
    have hQ1 : 1 ≤ fsize / s := by
      have : 1 * s ≤ fsize := by omega
      exact (Int.le_ediv_iff_mul_le (by omega)).mpr this
    have hq : ((fsize / s).toNat : Int) = fsize / s := Int.toNat_of_nonneg (by omega)
    have hlow : fsize / s * s ≤ fsize := Int.ediv_mul_le fsize (by omega)
    have hhigh : fsize < (fsize / s + 1) * s := Int.lt_ediv_add_one_mul_self fsize (by omega)
    obtain ⟨N, hN⟩ : ∃ N : Nat, (fsize / s).toNat = N + 1 :=
      ⟨(fsize / s).toNat - 1, by omega⟩
    have hNq : ((N : Int) + 1) = fsize / s := by rw [← hq, hN]; push_cast; ring
    have hfull : ∀ k, bytes_left_after fsize env.iter k = fsize - k * s :=
      fun k => bytes_left_after_full fsize s env.iter k (fun j _ => (hall j).1)
    obtain ⟨h1, h2, h3⟩ := run_sequential_one_stops fuel N lbl w env fsize msize alignment direct
      ms cal s t0 hstart (by omega)
      (fun j _ => ⟨by rw [(hall j).1]; omega, (hall j).2.1⟩)
      (fun j hj => ⟨(hall j).2.2, by
        rw [hfull]
        push_cast
        have h4 : ((j : Int) + 2) ≤ fsize / s := by omega
        have h5 : ((j : Int) + 2) * s ≤ fsize / s * s :=
          mul_le_mul_of_nonneg_right h4 (by omega)
        nlinarith⟩)
      (Or.inr (by
        rw [hfull]
        push_cast
        rw [hNq]
        nlinarith))
    refine ⟨?_, h2, ?_⟩
    · rw [h1, List.length_replicate, hN]
    · intro r hr
      rw [h3 r hr]
      push_cast
      exact hNq

/-- C3, witness: a run of four transfers on a file of 2048 bytes with blocks of 512
bytes whose first transfer returns 100 bytes; `bytes_left` falls below 512 at the
end of the fourth iteration. -/
theorem C3_sequential_stop_witness :
    (env_short_first.tvstart = some ⟨0, 0⟩ ∧ 3 < 10 ∧ (1 : Int) ≤ 512 ∧ (512 : Int) ≤ 2048
      ∧ (∀ j ≤ 3, 0 ≤ (env_short_first.iter j).io ∧ (env_short_first.iter j).tvend ≠ none)
      ∧ (∀ j < 3, elapsed_sec ⟨0, 0⟩ (env_short_first.iter j) < 2
          ∧ 512 ≤ bytes_left_after 2048 env_short_first.iter (j + 1))
      ∧ ((2 : Int) ≤ elapsed_sec ⟨0, 0⟩ (env_short_first.iter 3)
          ∨ bytes_left_after 2048 env_short_first.iter (3 + 1) < 512))
    ∧ transfers (run_sequential_one 10 "hd" 1 env_short_first 2048 8388608 512 1 2 0 512).trace
        = List.replicate (3 + 1) (decide ((1 : Int) ≠ 0)) :=
  ⟨⟨rfl, by decide, by decide, by decide, by decide, by decide, by decide⟩,
    (C3_sequential_stop.1 10 3 "hd" 1 env_short_first 2048 8388608 512 1 2 0 512 ⟨0, 0⟩ rfl
      (by decide) (by decide) (by decide) (by decide) (by decide) (by decide)).1⟩

/-- C3, counterexample: on a file of 2048 bytes with blocks of 512 bytes the first
transfer returns only 100 bytes, without error and before the time bound, and the
loop continues all the same: the run makes three more transfers and succeeds,
reporting 4 iterations. -/
theorem C3_short_transfer_counterexample :
    0 ≤ (env_short_first.iter 0).io ∧ (env_short_first.iter 0).io < 512
    ∧ elapsed_sec ⟨0, 0⟩ (env_short_first.iter 0) < 2
    ∧ (run_sequential_one 10 "hd" 1 env_short_first 2048 8388608 512 1 2 0 512).ret = .ok
    ∧ transfers (run_sequential_one 10 "hd" 1 env_short_first 2048 8388608 512 1 2 0 512).trace
        = [true, true, true, true]
    ∧ (records (run_sequential_one 10 "hd" 1 env_short_first 2048 8388608 512 1 2 0
        512).trace).map Record.num_iterations = [4] := by
  decide

/-! ## C4: the offsets of the random runner -/

/-- C4: in `run_random_one`, for `iosize >= 1`, `fsize >= 2*iosize` and every value
`r >= 0` returned by `rand()`, the offset of line 246 is defined, equals
`(r % ((fsize - iosize) / iosize)) * iosize`, is a multiple of `iosize` and lies in
`[0, fsize - iosize)`; under `fsize >= 4*msize` and `1 <= iosize <= msize` the
divisor `(fsize - iosize) / iosize` is not zero; and every offset the loop of a
run seeks to has these properties when the generator returns non-negative
values. -/
theorem C4_random_offset_in_file :
    (∀ (r fsize iosize : Int), 1 ≤ iosize → 2 * iosize ≤ fsize → 0 ≤ r →
      ∃ pos, random_pos r fsize iosize = some pos
        ∧ pos = r % ((fsize - iosize) / iosize) * iosize
        ∧ iosize ∣ pos ∧ 0 ≤ pos ∧ pos < fsize - iosize)
    ∧ (∀ (fsize msize iosize : Int), 4 * msize ≤ fsize → 1 ≤ iosize → iosize ≤ msize →
      ∃ d, cdiv (fsize - iosize) iosize = some d ∧ d ≠ 0)
    ∧ (∀ {σ : Type} (R : Rng σ) (g : σ) (fuel : Nat) (lbl : String) (writeops : Int)
        (env : RunEnv) (fsize msize alignment direct max_seconds cal iosize : Int),
        (∀ g, 0 ≤ (R.rand g).1) → 1 ≤ iosize → 2 * iosize ≤ fsize →
        ∀ pos ∈ (seeks (run_random_one R g fuel lbl writeops env fsize msize alignment direct
            max_seconds cal iosize).1.trace).tail,
          iosize ∣ pos ∧ 0 ≤ pos ∧ pos < fsize - iosize) := by
  refine ⟨?_, ?_, ?_⟩
  · intro r fsize iosize hs hf hr
    obtain ⟨h1, h2, h3, h4⟩ := random_pos_in_file r fsize iosize hs hf hr
    exact ⟨_, h1, rfl, h2, h3, h4⟩
  · intro fsize msize iosize hf hs hm
    have hd1 : 1 ≤ (fsize - iosize) / iosize :=
      (Int.le_ediv_iff_mul_le (by omega)).mpr (by omega)
    refine ⟨Int.tdiv (fsize - iosize) iosize, ?_, ?_⟩
    · unfold cdiv
      rw [if_neg (by omega)]
    · rw [Int.tdiv_eq_ediv (by omega) (by omega)]
      omega
  · intro σ R g fuel lbl w env fsize msize alignment direct ms cal s hR hs hf pos hpos
    obtain ⟨k, hk⟩ := List.mem_iff_getElem?.mp hpos
    have h1 := seeks_run_random_one_get R g fuel lbl w env fsize msize alignment direct ms cal s
      k pos hk
    obtain ⟨h2, h3, h4, h5⟩ := random_pos_in_file (rand_value R (R.srand 1) k) fsize s hs hf
      (hR _)
    rw [h2] at h1
    simp only [Option.some.injEq] at h1
    subst h1
    exact ⟨h3, h4, h5⟩

/-- C4, witness: a file of 4096 bytes, blocks of 512 bytes and the value 12 of
`rand()`: the divisor is 7 and the offset is 5 * 512 = 2560. -/
theorem C4_random_offset_in_file_witness :
    ((1 : Int) ≤ 512 ∧ (2 : Int) * 512 ≤ 4096 ∧ (0 : Int) ≤ 12)
    ∧ ∃ pos, random_pos 12 4096 512 = some pos
        ∧ pos = 12 % ((4096 - 512) / 512) * 512
        ∧ (512 : Int) ∣ pos ∧ 0 ≤ pos ∧ pos < 4096 - 512 :=
  ⟨⟨by decide, by decide, by decide⟩,
    C4_random_offset_in_file.1 12 4096 512 (by decide) (by decide) (by decide)⟩

/-! ## C5: the alternating mode of the random runner -/

/-- C5 (as amended): in `run_random_one` called in alternating mode (`writeops` = 2),
the transfer made on iteration `i`, counted from 0, is a read when `i` is even
and a write when `i` is odd: the operations strictly alternate and the first
iteration of each run is a read. -/
theorem C5_alternating_starts_with_read {σ : Type} (R : Rng σ) (g : σ) (fuel : Nat)
    (lbl : String) (env : RunEnv)
    (fsize msize alignment direct max_seconds cal iosize : Int) (i : Nat) (is_write : Bool)
    (h : (transfers (run_random_one R g fuel lbl 2 env fsize msize alignment direct max_seconds
      cal iosize).1.trace)[i]? = some is_write) :
    is_write = decide (i % 2 = 1) := by
  rcases transfers_run_random_one R g fuel lbl 2 env fsize msize alignment direct max_seconds
    cal iosize with ⟨t0, ht⟩ | ht
  · rw [ht] at h
    have := rnd_loop_alternates fuel _ 0 _ i is_write h
    simpa using this
  · rw [ht] at h
    simp at h

/-- C5, witness: the first transfer of an alternating run of four iterations is a
read. -/
theorem C5_alternating_starts_with_read_witness :
    (transfers (run_random_one counter_rng 0 10 "hd" 2 env_ticking 40960 8388608 512 1 4 0
      512).1.trace)[0]? = some false
    ∧ false = decide (0 % 2 = 1) :=
  ⟨by decide,
    C5_alternating_starts_with_read counter_rng 0 10 "hd" env_ticking 40960 8388608 512 1 4 0
      512 0 false (by decide)⟩

/-- C5, counterexample: an alternating run of four iterations that succeeds makes
the transfers read, write, read, write; the transfer of iteration 0 is a read,
not a write. -/
theorem C5_first_is_write_counterexample :
    (run_random_one counter_rng 0 10 "hd" 2 env_ticking 40960 8388608 512 1 4 0 512).1.ret
      = .ok
    ∧ transfers (run_random_one counter_rng 0 10 "hd" 2 env_ticking 40960 8388608 512 1 4 0
        512).1.trace = [false, true, false, true] := by
  decide

/-! ## C6: the divisions of the report -/

/-- C6, at the failing input: four full transfers of 8 MiB on a file of 32 MiB end
5 microseconds after the start, with a calibration value of 150000; the raw
time less the correction is -1, the corrected time is floored at 1, the average
`1 / 4` is 0 and the division `1000000 / 0` of the report kills the run: no
record is printed. -/
theorem C6_division_by_zero :
    corrected_usecs ⟨0, 5⟩ 4 150000 = 1
    ∧ cdiv 1 4 = some 0
    ∧ cdiv 1000000 0 = none
    ∧ transfers (run_sequential_one 10 "hd" 1 env_fast 33554432 8388608 512 1 60 150000
        8388608).trace = [true, true, true, true]
    ∧ (run_sequential_one 10 "hd" 1 env_fast 33554432 8388608 512 1 60 150000 8388608).ret
        = .sigfpe
    ∧ records (run_sequential_one 10 "hd" 1 env_fast 33554432 8388608 512 1 60 150000
        8388608).trace = [] := by
  decide

/-! ## C7: the offsets of a random run do not depend on the earlier state -/

/-- C7: `run_random_one` reseeds the generator with 1 on entry. Its result does not
depend on the state `g` the generator had before the call; and for two calls with
the same `(fsize, iosize)`, whatever the earlier states, the environments and the
other arguments, the offsets sought by the loop at iteration `k` are the same,
namely the offset computed from the value number `k` of the generator seeded
with 1. -/
theorem C7_offsets_deterministic {σ : Type} (R : Rng σ) (g1 g2 : σ) (fuel1 fuel2 : Nat)
    (lbl1 lbl2 : String) (writeops1 writeops2 : Int) (env1 env2 : RunEnv)
    (fsize iosize msize1 msize2 alignment1 alignment2 direct1 direct2 max_seconds1
      max_seconds2 cal1 cal2 : Int) (k : Nat) (pos1 pos2 : Int)
    (h1 : (seeks (run_random_one R g1 fuel1 lbl1 writeops1 env1 fsize msize1 alignment1 direct1
      max_seconds1 cal1 iosize).1.trace).tail[k]? = some pos1)
    (h2 : (seeks (run_random_one R g2 fuel2 lbl2 writeops2 env2 fsize msize2 alignment2 direct2
      max_seconds2 cal2 iosize).1.trace).tail[k]? = some pos2) :
    pos1 = pos2
    ∧ random_pos (rand_value R (R.srand 1) k) fsize iosize = some pos1
    ∧ (run_random_one R g1 fuel1 lbl1 writeops1 env1 fsize msize1 alignment1 direct1
        max_seconds1 cal1 iosize).1
      = (run_random_one R g2 fuel1 lbl1 writeops1 env1 fsize msize1 alignment1 direct1
        max_seconds1 cal1 iosize).1 := by
  have e1 := seeks_run_random_one_get R g1 fuel1 lbl1 writeops1 env1 fsize msize1 alignment1
    direct1 max_seconds1 cal1 iosize k pos1 h1
  have e2 := seeks_run_random_one_get R g2 fuel2 lbl2 writeops2 env2 fsize msize2 alignment2
    direct2 max_seconds2 cal2 iosize k pos2 h2
  refine ⟨?_, e1, rfl⟩
  rw [e1] at e2
  exact Option.some.inj e2

/-- C7, witness: two runs on a file of 40960 bytes with blocks of 512 bytes, entered
with the generator in the states 5 and 99, one alternating for four iterations
and one writing for three: both seek to offset 1024 at iteration 1. -/
theorem C7_offsets_deterministic_witness :
    ((seeks (run_random_one counter_rng 5 10 "a" 2 env_ticking 40960 8388608 512 1 4 0
        512).1.trace).tail[1]? = some 1024
      ∧ (seeks (run_random_one counter_rng 99 7 "b" 1 env_ticking 40960 4096 1 0 3 30
        512).1.trace).tail[1]? = some 1024)
    ∧ (1024 : Int) = 1024 :=
  ⟨⟨by decide, by decide⟩,
    (C7_offsets_deterministic counter_rng 5 99 10 7 "a" "b" 2 1 env_ticking env_ticking
      40960 512 8388608 4096 512 1 1 0 4 3 0 30 1 1024 1024 (by decide) (by decide)).1⟩

/-! ## C8: the sweeps are fail-fast -/

/-- C8: `run_sequential_all` and `run_random_all` are fail-fast. A sweep returns 0
if and only if some run of its block-size sequence returns 0 after every earlier
run returned 1; then the trace of the sweep is the traces of the runs up to and
including that first failing run and nothing else, so the block sizes attempted
are exactly `s, 2s, ..., s*2^j0` for the index `j0` of the failing run, and the
records printed are the `j0` records of the runs completed before it. When every
run returns, 1 or 0, the sweep returns 0 if and only if some run of its
block-size sequence returns 0. -/
theorem C8_sweeps_fail_fast {σ : Type} (R : Rng σ) (g : σ) (fuel : Nat) (lbl : String)
    (writeops : Int) (env : Nat → RunEnv)
    (fsize msize alignment direct max_seconds cal : Int) :
    (((run_sequential_all g fuel lbl writeops env fsize msize alignment direct max_seconds
          cal).1.ret = .failed ↔
        ∃ j0, j0 < fuel
          ∧ (∀ j < j0, first_iosize alignment direct * 2 ^ j ≤ msize
              ∧ (seq_run fuel lbl writeops env fsize msize alignment direct max_seconds cal j
                  (first_iosize alignment direct * 2 ^ j)).ret = .ok)
          ∧ first_iosize alignment direct * 2 ^ j0 ≤ msize
          ∧ (seq_run fuel lbl writeops env fsize msize alignment direct max_seconds cal j0
              (first_iosize alignment direct * 2 ^ j0)).ret = .failed)
      ∧ (∀ j0, j0 < fuel →
          (∀ j < j0, first_iosize alignment direct * 2 ^ j ≤ msize
              ∧ (seq_run fuel lbl writeops env fsize msize alignment direct max_seconds cal j
                  (first_iosize alignment direct * 2 ^ j)).ret = .ok) →
          first_iosize alignment direct * 2 ^ j0 ≤ msize →
          (seq_run fuel lbl writeops env fsize msize alignment direct max_seconds cal j0
              (first_iosize alignment direct * 2 ^ j0)).ret = .failed →
          (run_sequential_all g fuel lbl writeops env fsize msize alignment direct max_seconds
              cal).1.trace
            = sweep_traces (seq_run fuel lbl writeops env fsize msize alignment direct
                max_seconds cal) (j0 + 1) 0 (first_iosize alignment direct)
          ∧ blocks (run_sequential_all g fuel lbl writeops env fsize msize alignment direct
              max_seconds cal).1.trace
            = (List.range (j0 + 1)).map (fun j => first_iosize alignment direct * 2 ^ j)
          ∧ records (run_sequential_all g fuel lbl writeops env fsize msize alignment direct
              max_seconds cal).1.trace
            = records (sweep_traces (seq_run fuel lbl writeops env fsize msize alignment direct
                max_seconds cal) j0 0 (first_iosize alignment direct))
          ∧ (records (run_sequential_all g fuel lbl writeops env fsize msize alignment direct
              max_seconds cal).1.trace).length = j0)
      ∧ ((∀ j, j < fuel →
            (seq_run fuel lbl writeops env fsize msize alignment direct max_seconds cal j
              (first_iosize alignment direct * 2 ^ j)).ret = .ok
            ∨ (seq_run fuel lbl writeops env fsize msize alignment direct max_seconds cal j
              (first_iosize alignment direct * 2 ^ j)).ret = .failed) →
          ((run_sequential_all g fuel lbl writeops env fsize msize alignment direct max_seconds
              cal).1.ret = .failed ↔
            ∃ j, j < fuel ∧ (∀ i ≤ j, first_iosize alignment direct * 2 ^ i ≤ msize)
              ∧ (seq_run fuel lbl writeops env fsize msize alignment direct max_seconds cal j
                  (first_iosize alignment direct * 2 ^ j)).ret = .failed)))
    ∧ (((run_random_all R g fuel lbl writeops env fsize msize alignment direct max_seconds
          cal).1.ret = .failed ↔
        ∃ j0, j0 < fuel
          ∧ (∀ j < j0, first_iosize alignment direct * 2 ^ j ≤ msize
              ∧ (rnd_run R g fuel lbl writeops env fsize msize alignment direct max_seconds cal j
                  (first_iosize alignment direct * 2 ^ j)).ret = .ok)
          ∧ first_iosize alignment direct * 2 ^ j0 ≤ msize
          ∧ (rnd_run R g fuel lbl writeops env fsize msize alignment direct max_seconds cal j0
              (first_iosize alignment direct * 2 ^ j0)).ret = .failed)
      ∧ (∀ j0, j0 < fuel →
          (∀ j < j0, first_iosize alignment direct * 2 ^ j ≤ msize
              ∧ (rnd_run R g fuel lbl writeops env fsize msize alignment direct max_seconds cal j
                  (first_iosize alignment direct * 2 ^ j)).ret = .ok) →
          first_iosize alignment direct * 2 ^ j0 ≤ msize →
          (rnd_run R g fuel lbl writeops env fsize msize alignment direct max_seconds cal j0
              (first_iosize alignment direct * 2 ^ j0)).ret = .failed →
          (run_random_all R g fuel lbl writeops env fsize msize alignment direct max_seconds
              cal).1.trace
            = sweep_traces (rnd_run R g fuel lbl writeops env fsize msize alignment direct
                max_seconds cal) (j0 + 1) 0 (first_iosize alignment direct)
          ∧ blocks (run_random_all R g fuel lbl writeops env fsize msize alignment direct
              max_seconds cal).1.trace
            = (List.range (j0 + 1)).map (fun j => first_iosize alignment direct * 2 ^ j)
          ∧ records (run_random_all R g fuel lbl writeops env fsize msize alignment direct
              max_seconds cal).1.trace
            = records (sweep_traces (rnd_run R g fuel lbl writeops env fsize msize alignment
                direct max_seconds cal) j0 0 (first_iosize alignment direct))
          ∧ (records (run_random_all R g fuel lbl writeops env fsize msize alignment direct
              max_seconds cal).1.trace).length = j0)
      ∧ ((∀ j, j < fuel →
            (rnd_run R g fuel lbl writeops env fsize msize alignment direct max_seconds cal j
              (first_iosize alignment direct * 2 ^ j)).ret = .ok
            ∨ (rnd_run R g fuel lbl writeops env fsize msize alignment direct max_seconds cal j
              (first_iosize alignment direct * 2 ^ j)).ret = .failed) →
          ((run_random_all R g fuel lbl writeops env fsize msize alignment direct max_seconds
              cal).1.ret = .failed ↔
            ∃ j, j < fuel ∧ (∀ i ≤ j, first_iosize alignment direct * 2 ^ i ≤ msize)
              ∧ (rnd_run R g fuel lbl writeops env fsize msize alignment direct max_seconds cal j
                  (first_iosize alignment direct * 2 ^ j)).ret = .failed))) := by
  constructor
  · rw [run_sequential_all_eq]
    exact sweep_fail_fast_generic
      (fun g k s => (seq_run fuel lbl writeops env fsize msize alignment direct max_seconds cal
        k s, g))
      (seq_run fuel lbl writeops env fsize msize alignment direct max_seconds cal)
      (fun _ _ _ => rfl)
      (blocks_seq_run fuel lbl writeops env fsize msize alignment direct max_seconds cal)
      (records_length_seq_run fuel lbl writeops env fsize msize alignment direct max_seconds cal)
      msize fuel (first_iosize alignment direct) g
  · rw [run_random_all_eq]
    exact sweep_fail_fast_generic
      (fun g k s => run_random_one R g fuel lbl writeops (env k) fsize msize alignment direct
        max_seconds cal s)
      (rnd_run R g fuel lbl writeops env fsize msize alignment direct max_seconds cal)
      (fun _ _ _ => rfl)
      (blocks_rnd_run R g fuel lbl writeops env fsize msize alignment direct max_seconds cal)
      (records_length_rnd_run R g fuel lbl writeops env fsize msize alignment direct max_seconds
        cal)
      msize fuel (first_iosize alignment direct) g

/-- C8, witness: a direct sequential sweep with alignment 512 and capacity 8192
whose third run fails: the sweep attempts 512, 1024 and 2048 only and the two
records of the completed runs are printed. -/
theorem C8_sweeps_fail_fast_witness :
    (2 < 10
      ∧ (∀ j < 2, first_iosize 512 1 * 2 ^ j ≤ 8192
          ∧ (seq_run 10 "hd" 1 (env_fail_at 2) 33554432 8192 512 1 2 0 j
              (first_iosize 512 1 * 2 ^ j)).ret = .ok)
      ∧ first_iosize 512 1 * 2 ^ 2 ≤ 8192
      ∧ (seq_run 10 "hd" 1 (env_fail_at 2) 33554432 8192 512 1 2 0 2
            (first_iosize 512 1 * 2 ^ 2)).ret = .failed)
    ∧ blocks (run_sequential_all (0 : Int) 10 "hd" 1 (env_fail_at 2) 33554432 8192 512 1 2
        0).1.trace = (List.range (2 + 1)).map (fun j => first_iosize 512 1 * 2 ^ j)
    ∧ (records (run_sequential_all (0 : Int) 10 "hd" 1 (env_fail_at 2) 33554432 8192 512 1 2
        0).1.trace).length = 2 :=
  ⟨⟨by decide, by decide, by decide, by decide⟩,
    ((C8_sweeps_fail_fast counter_rng 0 10 "hd" 1 (env_fail_at 2) 33554432 8192 512 1 2
      0).1.2.1 2 (by decide) (by decide) (by decide) (by decide)).2.1,
    ((C8_sweeps_fail_fast counter_rng 0 10 "hd" 1 (env_fail_at 2) 33554432 8192 512 1 2
      0).1.2.1 2 (by decide) (by decide) (by decide) (by decide)).2.2.2⟩

/-! ## C9: the sequential write sweep of scenario 1 -/

/-- C9 (as amended): for the buffer capacity 64 MiB, `fsize` = 512 MiB,
`max_seconds` = 2, direct I/O and alignment 512, when every run succeeds the
sequential write sweep `run_sequential_all` returns 1 and prints records for the
block sizes 512, 1024, 2048, ..., 67108864, which are 18 records, each with
`num_iterations >= 1`. -/
theorem C9_scenario_one_records {σ : Type} (g : σ) (fuel : Nat) (lbl : String)
    (env : Nat → RunEnv) (cal : Int) (hfuel : 18 ≤ fuel)
    (hok : ∀ j < 18, (seq_run fuel lbl 1 env 536870912 67108864 512 1 2 cal j
      (512 * 2 ^ j)).ret = .ok) :
    (run_sequential_all g fuel lbl 1 env 536870912 67108864 512 1 2 cal).1.ret = .ok
    ∧ blocks (run_sequential_all g fuel lbl 1 env 536870912 67108864 512 1 2 cal).1.trace
        = [512, 1024, 2048, 4096, 8192, 16384, 32768, 65536, 131072, 262144, 524288,
            1048576, 2097152, 4194304, 8388608, 16777216, 33554432, 67108864]
    ∧ (records (run_sequential_all g fuel lbl 1 env 536870912 67108864 512 1 2 cal).1.trace).map
        Record.iosize
        = [512, 1024, 2048, 4096, 8192, 16384, 32768, 65536, 131072, 262144, 524288,
            1048576, 2097152, 4194304, 8388608, 16777216, 33554432, 67108864]
    ∧ (records (run_sequential_all g fuel lbl 1 env 536870912 67108864 512 1 2
        cal).1.trace).length = 18
    ∧ ∀ r ∈ records (run_sequential_all g fuel lbl 1 env 536870912 67108864 512 1 2
        cal).1.trace, 1 ≤ r.num_iterations := by
  have hfirst : first_iosize 512 1 = 512 := by decide
  have hlist : (List.range 18).map (fun j => (512 : Int) * 2 ^ j)
      = [512, 1024, 2048, 4096, 8192, 16384, 32768, 65536, 131072, 262144, 524288,
          1048576, 2097152, 4194304, 8388608, 16777216, 33554432, 67108864] := by decide
  obtain ⟨e1, e2⟩ := sweep_loop_all_ok
    (fun g k s => (seq_run fuel lbl 1 env 536870912 67108864 512 1 2 cal k s, g))
    (seq_run fuel lbl 1 env 536870912 67108864 512 1 2 cal) (fun _ _ _ => rfl)
    67108864 18 fuel 512 g hfuel (by decide) (by decide) hok
  rw [run_sequential_all_eq, hfirst]
  have hio := records_iosize_sweep_traces (seq_run fuel lbl 1 env 536870912 67108864 512 1 2 cal)
    (records_iosize_seq_run fuel lbl 1 env 536870912 67108864 512 1 2 cal) 18 0 512
    (by intro j hj; rw [Nat.zero_add]; exact hok j hj)
  refine ⟨e1, ?_, ?_, ?_, ?_⟩
  · rw [e2, blocks_sweep_traces _ (blocks_seq_run fuel lbl 1 env 536870912 67108864 512 1 2 cal),
      hlist]
  · rw [e2, hio, hlist]
  · rw [e2]
    have := congrArg List.length hio
    simpa using this
  · rw [e2]
    exact records_sweep_traces_forall _ (fun r => 1 ≤ r.num_iterations)
      (one_le_num_iterations_seq_run fuel lbl 1 env 536870912 67108864 512 1 2 cal) 18 0 512

/-- C9, witness: the sweep of scenario 1 in an environment where every run makes one
iteration that ends at 2 s. -/
theorem C9_scenario_one_records_witness :
    (18 ≤ 18 ∧ ∀ j < 18, (seq_run 18 "hd" 1 (fun _ => env_two_seconds) 536870912 67108864 512 1 2
      0 j (512 * 2 ^ j)).ret = .ok)
    ∧ (records (run_sequential_all () 18 "hd" 1 (fun _ => env_two_seconds) 536870912 67108864
        512 1 2 0).1.trace).length = 18 :=
  ⟨⟨by decide, by decide⟩,
    (C9_scenario_one_records () 18 "hd" (fun _ => env_two_seconds) 0 (by decide)
      (by decide)).2.2.2.1⟩

/-- C9, counterexample: in such an environment every run of the sweep of scenario 1
succeeds, the sweep returns 1 and the number of records printed is 18, not 17. -/
theorem C9_seventeen_records_counterexample :
    (run_sequential_all () 18 "hd" 1 (fun _ => env_two_seconds) 536870912 67108864 512 1 2
        0).1.ret = .ok
    ∧ (∀ j < 18, (seq_run 18 "hd" 1 (fun _ => env_two_seconds) 536870912 67108864 512 1 2 0 j
        (512 * 2 ^ j)).ret = .ok)
    ∧ (records (run_sequential_all () 18 "hd" 1 (fun _ => env_two_seconds) 536870912 67108864
        512 1 2 0).1.trace).length ≠ 17 := by
  decide

/-! ## C10: the quick mode -/

end Hdlatency
